import Mathlib

/-!
# PDBParser: symbol index, structure index and diff engine

A shallow embedding of `PDBParser/PdbParser.cpp` and `PDBParser/PdbParser.h`.

Modelling conventions.

* Names (`std::wstring`, `BSTR`, `std::string`) are text without embedded NUL, and `Name`
  is `String`: `wcscmp(a, b) == 0` is equality of the two names and `WStringToString`, the
  conversion to UTF-8, keeps the characters. The byte-wise widening
  `std::wstring(s.begin(), s.end())` gives the name back on ASCII names; of a character
  outside ASCII it makes code units that are not the name, which no stream converts and
  under which no lookup of the name finds a cache entry (see `widen`).
* `DWORD`, `DWORD64`, `ULONGLONG` values are natural numbers, `LONG` values are integers.
  No arithmetic is done on them in the functions embedded here.
* The DIA provider is data: every accessor of a record (`get_name`, `get_length`, ...) has
  a fixed outcome `Hr`, which is a value, a failing `HRESULT`, or an exception thrown by
  the call (the callbacks wrap every accessor in `try { ... } catch (...) { }`). An
  enumerator is the finite list of records that `Next` hands out before it ends or fails.
* A `StructInfo::size` that was never assigned is `none`.
* `std::unordered_map` is an association list with distinct keys; `operator[]` assignment
  overwrites in place or appends. Its iteration order is unspecified in C++; statements
  about iteration results below are insensitive to the order.
* `std::sort` is a sort by insertion with the comparator of the call site; only the facts
  that the result is ordered and is a permutation of the input are used.
* The `mutable` caches of `PdbParser` are passed in and returned explicitly.
* `std::wregex` is a parameter: a `RegexEngine` says which patterns compile and what
  `std::regex_search` answers.
* A `std::wofstream` is the text that went into the file together with its `basefield`
  flag and its failure state. No locale is imbued on a stream and no stream state is
  checked after writing: a character without a byte in the `"C"` locale makes the
  insertion fail, and the stream takes nothing more.
* The batch functions run against a `Host`: the DIA session of each database path, which
  output files open, and `std::filesystem::path::stem`; the files written are kept in
  order, each with its path and text, and a later write to a path replaces the file
  (`fileAfter`).
-/

namespace PDBParser

/-! ## Data model (PdbParser.h) -/

abbrev Name := String

structure SymbolInfo where
  name : Name
  rva : Nat
  size : Nat
  typeId : Nat
deriving DecidableEq, Repr

structure StructMember where
  name : Name
  offset : Nat
  size : Nat
  typeId : Nat
deriving DecidableEq, Repr

/-- The field `size` has no initialiser in the header: `none` is the indeterminate value of
a `size` that was never assigned. -/
structure StructInfo where
  name : Name
  size : Option Nat
  members : List StructMember
deriving DecidableEq, Repr

structure SymbolDiff where
  name : Name
  oldRva : Nat := 0
  newRva : Nat := 0
  added : Bool := false
  removed : Bool := false
  changed : Bool := false
deriving DecidableEq, Repr

/-! ## The DIA provider as data -/

/-- Outcome of one accessor call on a provider record. -/
inductive Hr (α : Type) where
  | ok (v : α)
  | failed
  | raised
deriving DecidableEq, Repr

/-- A record of the public symbol enumeration (`IDiaSymbol`, `SymTagPublicSymbol`). An
empty `undecoratedName` stands for a null or zero-length `BSTR`. -/
structure RawSymbol where
  undecoratedName : Hr Name
  relativeVirtualAddress : Hr Nat
  length : Hr Nat
  typeId : Hr Nat
deriving DecidableEq, Repr

/-- A record of a member enumeration (`IDiaSymbol`, `SymTagData`). -/
structure RawMember where
  name : Hr Name
  offset : Hr Int
  length : Hr Nat
  typeId : Hr Nat
deriving DecidableEq, Repr

/-- A record of the type enumeration (`IDiaSymbol`, `SymTagUDT`); `children` is the outcome
of `findChildren(SymTagData, ...)` on it. -/
structure RawUdt where
  name : Hr Name
  length : Hr Nat
  children : Hr (List RawMember)
deriving DecidableEq, Repr

/-- The global scope of an opened session: the outcome of `findChildren` for the two tags
the parser enumerates (`none` is a failing `HRESULT`). -/
structure Provider where
  publicSymbols : Option (List RawSymbol)
  udts : Option (List RawUdt)
deriving DecidableEq, Repr

/-- The provider's public symbol stream. -/
def Provider.symbolStream (p : Provider) : List RawSymbol := p.publicSymbols.getD []

/-- The provider's type stream. -/
def Provider.typeStream (p : Provider) : List RawUdt := p.udts.getD []

/-! ## Library pieces -/

/-- `WStringToString`: empty input gives the empty string; otherwise the converted text,
which on names as modelled here is the same text. -/
def WStringToString (wstr : Name) : Name :=
  if wstr = "" then "" else wstr

/-- Whether the conversion of a `std::wofstream` has a byte for the character. No locale
is imbued on the streams of the program, so the conversion of the `"C"` locale is in
force: an ASCII character is one byte, and a character beyond U+00FF, or a code unit that
`std::wstring(s.begin(), s.end())` made of a byte of a UTF-8 sequence, has no byte. The
characters U+0080 to U+00FF of a path or a structure name are counted with those that have
no byte, as the `"C"` locale of most C libraries has it (the Microsoft runtime gives each
of them one byte); the statements about streams below speak of ASCII text and of symbol
names, where the libraries agree. -/
def convertible (c : Char) : Bool := c.toNat < 128

/-- Whether every character of the text is ASCII, and so convertible. -/
def asciiText (s : String) : Bool := s.data.all convertible

/-- The widening `std::wstring(s.begin(), s.end())` of a `std::string` that
`WStringToString` made: one code unit for each byte of the UTF-8 text. On an ASCII name
that is the name. A character outside ASCII becomes the code units of its bytes, which are
not characters of the name; in the widened text such a character stands for these code
units. The two places that take a widened text treat it so: a stream fails at it, as the
code fails at the first of the code units (`convertible`), and a cache key that holds one
is the key of no name (`PreloadSymbols`). -/
def widen (s : Name) : Name := s

/-- Insertion of `x` in front of the first element that does not precede it. -/
def sortInsert {α : Type} (lt : α → α → Bool) (x : α) : List α → List α
  | [] => [x]
  | y :: ys => if lt y x then y :: sortInsert lt x ys else x :: y :: ys

/-- The model of `std::sort(first, last, lt)`. -/
def stdSort {α : Type} (lt : α → α → Bool) : List α → List α
  | [] => []
  | x :: xs => sortInsert lt x (stdSort lt xs)

/-- The model of `std::unordered_map<Name, β>`. -/
abbrev UMap (β : Type) := List (Name × β)

/-- The value stored under a key: `m.find(k)`, `none` for `m.end()`. -/
def UMap.find {β : Type} : UMap β → Name → Option β
  | [], _ => none
  | (k', v) :: rest, k => if k' = k then some v else UMap.find rest k

/-- The assignment `m[k] = v`. -/
def UMap.assign {β : Type} : UMap β → Name → β → UMap β
  | [], k, v => [(k, v)]
  | (k', v') :: rest, k, v =>
    if k' = k then (k, v) :: rest else (k', v') :: UMap.assign rest k v

/-! ## PdbParser::EnumerateSymbols -/

/-- The `while` loop of `EnumerateSymbols`: the callback sees each record in turn and its
closure state `σ`; a `false` answer breaks the loop. -/
def enumLoop {ρ σ : Type} (callback : σ → ρ → σ × Bool) : σ → List ρ → σ
  | s, [] => s
  | s, r :: rest =>
    match callback s r with
    | (s', true) => enumLoop callback s' rest
    | (s', false) => s'

/-- `EnumerateSymbols`: `false` without any callback when `findChildren` fails. -/
def EnumerateSymbols {ρ σ : Type} (children : Option (List ρ))
    (callback : σ → ρ → σ × Bool) (s : σ) : σ × Bool :=
  match children with
  | none => (s, false)
  | some l => (enumLoop callback s l, true)

/-! ## PdbParser::GetAllPublicSymbols -/

/-- The guarded part of the callback of `GetAllPublicSymbols`: the record to append, if
any. A failing or throwing accessor, an empty name, or an empty converted name give none. -/
def decodeSymbol (pSymbol : RawSymbol) : Option SymbolInfo :=
  match pSymbol.undecoratedName with
  | .ok bstrName =>
    if 0 < bstrName.length then
      match pSymbol.relativeVirtualAddress with
      | .ok rva =>
        match pSymbol.length with
        | .ok length =>
          match pSymbol.typeId with
          | .ok typeId =>
            let safeName := WStringToString bstrName
            if safeName = "" then none else some ⟨safeName, rva, length, typeId⟩
          | _ => none
        | _ => none
      | _ => none
    else none
  | _ => none

/-- The callback of `GetAllPublicSymbols`; it answers `symbols.size() < 5000`. -/
def publicSymbolCallback (symbols : List SymbolInfo) (pSymbol : RawSymbol) :
    List SymbolInfo × Bool :=
  let symbols' :=
    match decodeSymbol pSymbol with
    | some info => symbols ++ [info]
    | none => symbols
  (symbols', decide (symbols'.length < 5000))

/-- `PdbParser::GetAllPublicSymbols`. -/
def GetAllPublicSymbols (p : Provider) : List SymbolInfo :=
  let symbols := (EnumerateSymbols p.publicSymbols publicSymbolCallback []).1
  stdSort (fun a b => decide (a.rva < b.rva)) symbols

/-! ## PdbParser::GetSymbolRva, PreloadSymbols -/

/-- The callback of `GetSymbolRva`; the closure state is `(rva, found)`. -/
def symbolRvaCallback (symbolName : Name) (st : Nat × Bool) (pSymbol : RawSymbol) :
    (Nat × Bool) × Bool :=
  match pSymbol.undecoratedName with
  | .ok bstrName =>
    if 0 < bstrName.length ∧ symbolName = bstrName then
      match pSymbol.relativeVirtualAddress with
      | .ok tempRva => ((tempRva, true), false)
      | _ => (st, true)
    else (st, true)
  | _ => (st, true)

/-- `PdbParser::GetSymbolRva`: the result and the symbol cache after the call. -/
def GetSymbolRva (p : Provider) (m_symbolCache : UMap Nat) (symbolName : Name) :
    Option Nat × UMap Nat :=
  match m_symbolCache.find symbolName with
  | some v => (some v, m_symbolCache)
  | none =>
    match (EnumerateSymbols p.publicSymbols (symbolRvaCallback symbolName) (0, false)).1 with
    | (rva, true) => (some rva, m_symbolCache.assign symbolName rva)
    | (_, false) => (none, m_symbolCache)

/-- `PdbParser::PreloadSymbols`: the symbol cache after the call. The key of a record is
its widened name. For a name with a character outside ASCII that key is made of the code
units of the UTF-8 bytes and is not the name: a lookup of the name does not find the
entry. The cache is read through lookups of names only, and the entry is left out of it,
no name being taken to consist of such code units. -/
def PreloadSymbols (p : Provider) (m_symbolCache : UMap Nat) : UMap Nat :=
  (GetAllPublicSymbols p).foldl
    (fun cache symbol =>
      if asciiText symbol.name then cache.assign (widen symbol.name) symbol.rva else cache)
    m_symbolCache

/-! ## PdbParser::GetStructInfo, ParseStructInternal, GetStructMemberOffset -/

/-- The guarded part of the member loop body: the member to append, if any. A negative
offset is stored as `0`. -/
def decodeMember (pMember : RawMember) : Option StructMember :=
  match pMember.name with
  | .ok memberName =>
    if 0 < memberName.length then
      match pMember.offset with
      | .ok offset =>
        match pMember.length with
        | .ok memberSize =>
          match pMember.typeId with
          | .ok typeId =>
            let safeMemberName := WStringToString memberName
            if safeMemberName = "" then none
            else some ⟨safeMemberName, if 0 ≤ offset then offset.toNat else 0, memberSize, typeId⟩
          | _ => none
        | _ => none
      | _ => none
    else none
  | _ => none

/-- The member loop of `ParseStructInternal`: it runs while `Next` hands out a member and
`structInfo.members.size() < 100`. -/
def memberLoop : List StructMember → List RawMember → List StructMember
  | members, [] => members
  | members, pMember :: rest =>
    if members.length < 100 then
      match decodeMember pMember with
      | some m => memberLoop (members ++ [m]) rest
      | none => memberLoop members rest
    else members

/-- The callback of `ParseStructInternal`; the closure state is `(structInfo, found)`. An
exception thrown by an accessor leaves the loop body through `catch (...)`, keeping what
was assigned to `structInfo` before, and the enumeration continues. -/
def parseStructCallback (structName : Name) (st : StructInfo × Bool) (pSymbol : RawUdt) :
    (StructInfo × Bool) × Bool :=
  match pSymbol.name with
  | .ok bstrName =>
    if 0 < bstrName.length ∧ structName = bstrName then
      let named : StructInfo := { st.1 with name := WStringToString bstrName }
      match pSymbol.length with
      | .raised => ((named, st.2), true)
      | hrLength =>
        let sized : StructInfo :=
          match hrLength with
          | .ok structSize => { named with size := some structSize }
          | _ => named
        match pSymbol.children with
        | .raised => ((sized, st.2), true)
        | .failed => ((sized, true), false)
        | .ok pEnumMembers =>
          (({ sized with members := memberLoop sized.members pEnumMembers }, true), false)
    else (st, true)
  | _ => (st, true)

/-- `PdbParser::ParseStructInternal`: the result and the structure cache after the call. -/
def ParseStructInternal (p : Provider) (m_structCache : UMap StructInfo) (structName : Name) :
    Option StructInfo × UMap StructInfo :=
  match (EnumerateSymbols p.udts (parseStructCallback structName) (⟨"", none, []⟩, false)).1 with
  | (structInfo, true) =>
    let sorted : StructInfo :=
      { structInfo with
        members := stdSort (fun a b => decide (a.offset < b.offset)) structInfo.members }
    (some sorted, m_structCache.assign structName sorted)
  | (_, false) => (none, m_structCache)

/-- `PdbParser::GetStructInfo`: the result and the structure cache after the call. -/
def GetStructInfo (p : Provider) (m_structCache : UMap StructInfo) (structName : Name) :
    Option StructInfo × UMap StructInfo :=
  match m_structCache.find structName with
  | some info => (some info, m_structCache)
  | none => ParseStructInternal p m_structCache structName

/-- `PdbParser::GetStructMemberOffset`: the result and the structure cache after the call. -/
def GetStructMemberOffset (p : Provider) (m_structCache : UMap StructInfo)
    (structName memberName : Name) : Option Nat × UMap StructInfo :=
  match GetStructInfo p m_structCache structName with
  | (none, cache) => (none, cache)
  | (some structInfo, cache) =>
    let memberNameStr := WStringToString memberName
    match structInfo.members.find? (fun member => decide (member.name = memberNameStr)) with
    | some member => (some member.offset, cache)
    | none => (none, cache)

/-! ## PdbParser::GetAllStructNames, PreloadStructures, ClearCaches -/

/-- The callback of `GetAllStructNames`; it answers `names.size() < 1000`. -/
def structNameCallback (names : List Name) (pSymbol : RawUdt) : List Name × Bool :=
  let names' :=
    match pSymbol.name with
    | .ok bstrName => if 0 < bstrName.length then names ++ [bstrName] else names
    | _ => names
  (names', decide (names'.length < 1000))

/-- `PdbParser::GetAllStructNames`. -/
def GetAllStructNames (p : Provider) : List Name :=
  (EnumerateSymbols p.udts structNameCallback []).1

/-- `PdbParser::PreloadStructures`: the structure cache after the call. -/
def PreloadStructures (p : Provider) (m_structCache : UMap StructInfo) : UMap StructInfo :=
  (GetAllStructNames p).foldl (fun cache name => (ParseStructInternal p cache name).2)
    m_structCache

/-- `PdbParser::ClearCaches`: both caches after the call. -/
def ClearCaches (_m_symbolCache : UMap Nat) (_m_structCache : UMap StructInfo) :
    UMap Nat × UMap StructInfo :=
  ([], [])

/-! ## PdbParser::FindSymbolsByPattern -/

/-- The regular expression library as the parser uses it: `compile pattern` is the
construction `std::wregex regex(pattern, std::regex_constants::icase)`, `none` when it
throws `std::regex_error`; the function it gives is `std::regex_search(name, regex)`, taken
to answer without throwing. -/
structure RegexEngine where
  compile : Name → Option (Name → Bool)

/-- The callback of `FindSymbolsByPattern`; it answers `matches.size() < 200`. -/
def patternCallback (regex_search : Name → Bool) (matchList : List SymbolInfo)
    (pSymbol : RawSymbol) : List SymbolInfo × Bool :=
  let matchList' :=
    match pSymbol.undecoratedName with
    | .ok bstrName =>
      if 0 < bstrName.length then
        if regex_search bstrName then
          match pSymbol.relativeVirtualAddress with
          | .ok rva =>
            match pSymbol.length with
            | .ok length =>
              match pSymbol.typeId with
              | .ok typeId =>
                let safeName := WStringToString bstrName
                if safeName = "" then matchList
                else matchList ++ [⟨safeName, rva, length, typeId⟩]
              | _ => matchList
            | _ => matchList
          | _ => matchList
        else matchList
      else matchList
    | _ => matchList
  (matchList', decide (matchList'.length < 200))

/-- `PdbParser::FindSymbolsByPattern`: a `std::regex_error` of the construction is caught
and the empty vector is returned. -/
def FindSymbolsByPattern (rx : RegexEngine) (p : Provider) (pattern : Name) :
    List SymbolInfo :=
  match rx.compile pattern with
  | some regex_search => (EnumerateSymbols p.publicSymbols (patternCallback regex_search) []).1
  | none => []

/-! ## PdbParser::DumpToJson -/

/-- The object state of a `PdbParser` after a successful construction. -/
structure PdbParser where
  m_pGlobalScope : Provider
  m_machineType : Nat
  m_pdbPath : Name
  m_symbolCache : UMap Nat
  m_structCache : UMap StructInfo
deriving DecidableEq, Repr

/-- A `std::wofstream`: the text that went into the file, whether the `basefield` flag is
`hex` (it is `dec` on a new stream), and whether an insertion has failed (`badbit`). -/
structure WOStream where
  text : String
  hex : Bool
  bad : Bool
deriving DecidableEq, Repr

/-- The insertion `file << s` of a string. A stream that has failed takes nothing more. A
character that is not convertible makes the insertion fail: what stands before it is kept
and the stream is bad from then on. A library that converts a buffer at a time keeps less
of the text before the character, down to nothing. -/
def WOStream.put (file : WOStream) (s : String) : WOStream :=
  if file.bad then file
  else if asciiText s then { file with text := file.text ++ s }
  else
    { file with
      text := file.text ++ String.mk (s.data.takeWhile convertible)
      bad := true }

/-- The insertion `file << n` of an unsigned integer, in the base the stream is set to. A
stream that has failed takes nothing more. -/
def WOStream.putNum (file : WOStream) (n : Nat) : WOStream :=
  if file.bad then file
  else
    { file with
      text := file.text ++ String.mk (Nat.toDigits (if file.hex then 16 else 10) n) }

/-- The insertion `file << std::hex`. -/
def WOStream.setHex (file : WOStream) : WOStream := { file with hex := true }

/-- The insertion `file << std::dec`. -/
def WOStream.setDec (file : WOStream) : WOStream := { file with hex := false }

/-- The escaping loop of `DumpToJson` over the characters of a symbol name. -/
def escapeName (wname : Name) : Name :=
  wname.data.foldl
    (fun escaped_name c =>
      if c = '"' then escaped_name ++ "\\\""
      else if c = '\\' then escaped_name ++ "\\\\"
      else escaped_name.push c)
    ""

/-- The body of the symbol loop of `DumpToJson` for `symbols[i]`; `count` is
`symbols.size()`. -/
def dumpSymbol (count : Nat) (file : WOStream) (entry : Nat × SymbolInfo) : WOStream :=
  let i := entry.1
  let symbol := entry.2
  let wname := widen symbol.name
  let escaped_name := escapeName wname
  let file := file.put "    \x7b\n"
  let file := ((file.put "      \"name\": \"").put escaped_name).put "\",\n"
  let file := (((file.put "      \"rva\": \"0x").setHex).putNum symbol.rva).put "\",\n"
  let file := (((file.put "      \"size\": ").setDec).putNum symbol.size).put ",\n"
  let file := ((file.put "      \"type_id\": ").putNum symbol.typeId).put "\n"
  let file := file.put "    \x7d"
  let file := if i < count - 1 then file.put "," else file
  file.put "\n"

/-- The body of the member loop of `DumpToJson` for `members[j]`; `count` is
`members.size()`. -/
def dumpMember (count : Nat) (file : WOStream) (entry : Nat × StructMember) : WOStream :=
  let j := entry.1
  let member := entry.2
  let wmemberName := widen member.name
  let file := file.put "        \x7b\n"
  let file := ((file.put "          \"name\": \"").put wmemberName).put "\",\n"
  let file := ((file.put "          \"offset\": ").putNum member.offset).put ",\n"
  let file := ((file.put "          \"size\": ").putNum member.size).put ",\n"
  let file := ((file.put "          \"type_id\": ").putNum member.typeId).put "\n"
  let file := file.put "        \x7d"
  let file := if j < count - 1 then file.put "," else file
  file.put "\n"

/-- The body of the structure loop of `DumpToJson` for `structNames[i]`; `count` is
`structNames.size()`. The state is the stream and the structure cache, which
`GetStructInfo` fills. A structure that is not found is skipped by `continue`. A `size`
that was never assigned prints as the indeterminate value `uninit structName`. -/
def dumpStruct (p : Provider) (uninit : Name → Nat) (count : Nat)
    (st : WOStream × UMap StructInfo) (entry : Nat × Name) : WOStream × UMap StructInfo :=
  let i := entry.1
  let structName := entry.2
  match GetStructInfo p st.2 structName with
  | (none, cache) => (st.1, cache)
  | (some structInfo, cache) =>
    let file := st.1.put "    \x7b\n"
    let file := ((file.put "      \"name\": \"").put structName).put "\",\n"
    let file :=
      ((file.put "      \"size\": ").putNum (structInfo.size.getD (uninit structName))).put ",\n"
    let file := file.put "      \"members\": [\n"
    let file := structInfo.members.enum.foldl (dumpMember structInfo.members.length) file
    let file := file.put "      ]\n"
    let file := file.put "    \x7d"
    let file := if i < count - 1 then file.put "," else file
    (file.put "\n", cache)

/-- `PdbParser::DumpToJson`: the returned flag, the text written to the file, and the
parser with its structure cache after the call. `opens` tells whether the output file
could be opened. -/
def DumpToJson (self : PdbParser) (opens : Bool) (uninit : Name → Nat) :
    Bool × String × PdbParser :=
  if !opens then (false, "", self)
  else
    let file : WOStream := ⟨"", false, false⟩
    let file := file.put "\x7b\n"
    let file := file.put "  \"pdb_info\": \x7b\n"
    let file := ((file.put "    \"path\": \"").put self.m_pdbPath).put "\",\n"
    let file := ((file.put "    \"machine_type\": ").putNum self.m_machineType).put "\n"
    let file := file.put "  \x7d,\n"
    let symbols := GetAllPublicSymbols self.m_pGlobalScope
    let file := file.put "  \"symbols\": [\n"
    let file := symbols.enum.foldl (dumpSymbol symbols.length) file
    let file := file.put "  ],\n"
    let structNames := GetAllStructNames self.m_pGlobalScope
    let file := file.put "  \"structures\": [\n"
    let st := structNames.enum.foldl (dumpStruct self.m_pGlobalScope uninit structNames.length)
      (file, self.m_structCache)
    let file := st.1.put "  ],\n"
    let file := file.put "  \"statistics\": \x7b\n"
    let file := ((file.put "    \"total_symbols\": ").putNum symbols.length).put ",\n"
    let file := ((file.put "    \"total_structures\": ").putNum structNames.length).put "\n"
    let file := file.put "  \x7d\n"
    let file := file.put "\x7d\n"
    (true, file.text, { self with m_structCache := st.2 })

/-! ## PdbComparer::ComparePdbs -/

/-- The two filling loops of `ComparePdbs`: `map[sym.name] = sym.rva` for each symbol. -/
def buildMap (symbols : List SymbolInfo) : UMap Nat :=
  symbols.foldl (fun m sym => m.assign sym.name sym.rva) []

/-- The first reporting loop: names of `oldMap` that `newMap` lacks. -/
def removedLoop (oldMap newMap : UMap Nat) : List SymbolDiff :=
  oldMap.filterMap fun (name, rva) =>
    match newMap.find name with
    | none => some ⟨name, rva, 0, false, true, false⟩
    | some _ => none

/-- The second reporting loop: names of `newMap` that `oldMap` lacks, or holds at another
address. -/
def addedChangedLoop (oldMap newMap : UMap Nat) : List SymbolDiff :=
  newMap.filterMap fun (name, newRva) =>
    match oldMap.find name with
    | none => some ⟨name, 0, newRva, true, false, false⟩
    | some oldRva =>
      if oldRva ≠ newRva then some ⟨name, oldRva, newRva, false, false, true⟩ else none

/-- The body of `ComparePdbs` after the two snapshots are taken. -/
def compareSymbols (oldSymbols newSymbols : List SymbolInfo) : List SymbolDiff :=
  let oldMap := buildMap oldSymbols
  let newMap := buildMap newSymbols
  removedLoop oldMap newMap ++ addedChangedLoop oldMap newMap

/-- `PdbComparer::ComparePdbs`. -/
def ComparePdbs (oldPdb newPdb : Provider) : List SymbolDiff :=
  compareSymbols (GetAllPublicSymbols oldPdb) (GetAllPublicSymbols newPdb)

/-! ## PdbParser::PdbParser, BatchProcessor -/

/-- What the DIA SDK gives for a database path when `InitializeDia` succeeds: the global
scope and the outcome of `get_machineType` (`none` for a failing `HRESULT`). -/
structure Session where
  globalScope : Provider
  machineType : Option Nat
deriving DecidableEq, Repr

/-- The surroundings of the batch functions: `dia path` is the session the DIA SDK opens
for a database path, `none` when `CoInitialize` or `InitializeDia` fails; `opens path`
tells whether a `std::wofstream` on the path is open; `stem` is
`std::filesystem::path(p).stem()`; `uninit` gives the indeterminate value of a structure
size that was never assigned. -/
structure Host where
  dia : Name → Option Session
  opens : Name → Bool
  stem : Name → Name
  uninit : Name → Nat

/-- `PdbParser::PdbParser`: `none` when the constructor throws `std::runtime_error`. The
machine type starts as `MachineType::x86` (`IMAGE_FILE_MACHINE_I386`, 0x014c) and is
replaced when `get_machineType` succeeds. -/
def PdbParser.construct (host : Host) (pdbPath : Name) : Option PdbParser :=
  match host.dia pdbPath with
  | none => none
  | some session =>
    some ⟨session.globalScope, session.machineType.getD 0x014c, pdbPath, [], []⟩

/-- `PdbParser::IsInitialized`: the global scope of a constructed parser is never null. -/
def PdbParser.IsInitialized (_self : PdbParser) : Bool := true

/-- The loop body of `ProcessMultiplePdbs`; the state is the list of files written so far,
each with its path and text. An exception of the constructor is caught by the `catch` of
the body. -/
def processOne (host : Host) (outputDir : Name) (written : List (Name × String))
    (pdbFile : Name) : List (Name × String) :=
  match PdbParser.construct host pdbFile with
  | none => written
  | some parser =>
    if !parser.IsInitialized then written
    else
      let filename := host.stem pdbFile
      let outputFile := outputDir ++ "\\" ++ filename ++ "_analysis.json"
      match DumpToJson parser (host.opens outputFile) host.uninit with
      | (true, text, _) => written ++ [(outputFile, text)]
      | (false, _, _) => written

/-- `BatchProcessor::ProcessMultiplePdbs`, for an output directory that
`create_directories` can create: the files written, in order. Every write opens its file
anew, so of two writes to one path the later one is what the file holds (`fileAfter`). -/
def ProcessMultiplePdbs (host : Host) (pdbFiles : List Name) (outputDir : Name) :
    List (Name × String) :=
  pdbFiles.foldl (processOne host outputDir) []

/-- The loop body of `GenerateSummaryReport` for `pdbFiles[i]`; `count` is
`pdbFiles.size()`. An exception of the constructor is caught by `catch (...)`. -/
def summaryEntry (host : Host) (count : Nat) (file : WOStream) (entry : Nat × Name) :
    WOStream :=
  let i := entry.1
  let pdbFile := entry.2
  match PdbParser.construct host pdbFile with
  | none => file
  | some parser =>
    if parser.IsInitialized then
      let symbols := GetAllPublicSymbols parser.m_pGlobalScope
      let structs := GetAllStructNames parser.m_pGlobalScope
      let file := file.put "      \x7b\n"
      let file := ((file.put "        \"file\": \"").put pdbFile).put "\",\n"
      let file := ((file.put "        \"symbols\": ").putNum symbols.length).put ",\n"
      let file := ((file.put "        \"structures\": ").putNum structs.length).put "\n"
      let file := file.put "      \x7d"
      let file := if i < count - 1 then file.put "," else file
      file.put "\n"
    else file

/-- `BatchProcessor::GenerateSummaryReport`: the text written to `outputPath`, `none` when
the file is not open. -/
def GenerateSummaryReport (host : Host) (pdbFiles : List Name) (outputPath : Name) :
    Option String :=
  if !host.opens outputPath then none
  else
    let file : WOStream := ⟨"", false, false⟩
    let file := file.put "\x7b\n  \"summary\": \x7b\n"
    let file := ((file.put "    \"total_files\": ").putNum pdbFiles.length).put ",\n"
    let file := file.put "    \"processed\": [\n"
    let file := pdbFiles.enum.foldl (summaryEntry host pdbFiles.length) file
    let file := file.put "    ]\n  \x7d\n\x7d\n"
    some file.text

/-! ## Vocabulary of the specification -/

/-- The symbol record carried by a well-formed provider record: the name is readable and
not empty, and rva, length and type id are readable. A malformed record carries none. -/
def RawSymbol.wellFormed (r : RawSymbol) : Option SymbolInfo :=
  match r.undecoratedName, r.relativeVirtualAddress, r.length, r.typeId with
  | .ok name, .ok rva, .ok length, .ok typeId =>
    if name = "" then none else some ⟨name, rva, length, typeId⟩
  | _, _, _, _ => none

/-- The well-formed records of the provider's symbol stream, in enumeration order. -/
def Provider.wellFormedSymbols (p : Provider) : List SymbolInfo :=
  p.symbolStream.filterMap RawSymbol.wellFormed

/-- The rva of the last record of a snapshot that carries the name, if any. -/
def lastRva : List SymbolInfo → Name → Option Nat
  | [], _ => none
  | s :: rest, n =>
    match lastRva rest n with
    | some v => some v
    | none => if s.name = n then some s.rva else none

/-- A list of symbol records is non-decreasing in rva. -/
def SortedByRva (l : List SymbolInfo) : Prop :=
  List.Pairwise (fun a b => a.rva ≤ b.rva) l

/-- A well-formed provider record for a symbol. -/
def RawSymbol.mk4 (name : Name) (rva size typeId : Nat) : RawSymbol :=
  ⟨.ok name, .ok rva, .ok size, .ok typeId⟩

/-- A well-formed provider record for a member. -/
def RawMember.mk4 (name : Name) (offset : Int) (size typeId : Nat) : RawMember :=
  ⟨.ok name, .ok offset, .ok size, .ok typeId⟩

/-- The parser over the snapshot `{A:0x100, B:0x200}`. -/
def diffOldAB : Provider := ⟨some [.mk4 "A" 0x100 0 0, .mk4 "B" 0x200 0 0], none⟩

/-- The parser over the snapshot `{B:0x200, C:0x300}`. -/
def diffNewBC : Provider := ⟨some [.mk4 "B" 0x200 0 0, .mk4 "C" 0x300 0 0], none⟩

/-- The parser over the snapshot `{A:0x100}`. -/
def diffOldA : Provider := ⟨some [.mk4 "A" 0x100 0 0], none⟩

/-- The parser over the snapshot `{A:0x150}`. -/
def diffNewA : Provider := ⟨some [.mk4 "A" 0x150 0 0], none⟩

/-- A provider whose symbol stream is one well-formed record repeated `n` times. -/
def repeatedProvider (n : Nat) : Provider :=
  ⟨some (List.replicate n (RawSymbol.mk4 "sym" 16 4 0)), none⟩

/-- A provider with malformed records of every kind between three well-formed ones. -/
def mixedProvider : Provider :=
  ⟨some [⟨.ok "", .ok 1, .ok 1, .ok 1⟩, .mk4 "c" 0x30 1 0, ⟨.failed, .ok 2, .ok 1, .ok 1⟩,
    ⟨.ok "x", .failed, .ok 1, .ok 1⟩, .mk4 "a" 0x10 1 0, ⟨.ok "y", .ok 3, .raised, .ok 1⟩,
    ⟨.ok "z", .ok 4, .ok 1, .failed⟩, ⟨.raised, .ok 5, .ok 1, .ok 1⟩, .mk4 "b" 0x20 1 0], none⟩

/-- The name and rva a lookup can read off a provider record: both readable, the name not
empty. Length and type id are not looked at. -/
def RawSymbol.nameAndRva (r : RawSymbol) : Option (Name × Nat) :=
  match r.undecoratedName, r.relativeVirtualAddress with
  | .ok name, .ok rva => if name = "" then none else some (name, rva)
  | _, _ => none

/-- The rva a provider record answers to a lookup of `name`: its name is readable, not
empty and equal to `name`, and its rva is readable. -/
def RawSymbol.answer (name : Name) (r : RawSymbol) : Option Nat :=
  match r.nameAndRva with
  | some (n, rva) => if n = name then some rva else none
  | none => none

/-- The answer of the first record of the stream, in enumeration order, that answers a
lookup of `name`. -/
def firstAnswer (stream : List RawSymbol) (name : Name) : Option Nat :=
  stream.findSome? (RawSymbol.answer name)

/-- The lookup result as C3 words it: the rva of the first record of the stream whose name
is the requested name, and nothing when no record has that name. -/
def firstNamedRva (stream : List RawSymbol) (name : Name) : Option Nat :=
  match stream.find? (fun r => decide (r.undecoratedName = .ok name)) with
  | some r =>
    match r.relativeVirtualAddress with
    | .ok rva => some rva
    | _ => none
  | none => none

/-- A provider whose first record named `A` has an unreadable rva. -/
def shadowedProvider : Provider :=
  ⟨some [⟨.ok "A", .failed, .ok 0, .ok 0⟩, .mk4 "A" 5 0 0], none⟩

/-- A provider whose only record has an empty name and the readable rva 7. -/
def emptyNameProvider : Provider :=
  ⟨some [.mk4 "" 7 0 0], none⟩

/-- The name of the `i`-th filler record: `i + 1` letters `a`. -/
def fillerName (i : Nat) : Name := String.mk (List.replicate (i + 1) 'a')

/-- The stream of `n` well-formed filler records with distinct names. -/
def filler (n : Nat) : List RawSymbol :=
  (List.range n).map (fun i => RawSymbol.mk4 (fillerName i) i 0 0)

/-- A provider with 5000 well-formed filler records followed by two records named `b`: one
with rva 1 and an unreadable length, then a well-formed one with rva 2. -/
def overfullProvider : Provider :=
  ⟨some (filler 5000 ++ [⟨.ok "b", .ok 1, .failed, .ok 0⟩, .mk4 "b" 2 0 0]), none⟩

/-- The member record carried by a well-formed provider member: the name is readable and
not empty, and offset, length and type id are readable. A negative offset is recorded as
`0`. A malformed member carries none. -/
def RawMember.wellFormed (m : RawMember) : Option StructMember :=
  match m.name, m.offset, m.length, m.typeId with
  | .ok name, .ok offset, .ok length, .ok typeId =>
    if name = "" then none else some ⟨name, offset.toNat, length, typeId⟩
  | _, _, _, _ => none

/-- The member stream of a type record: empty when `findChildren` does not succeed. -/
def RawUdt.memberStream (u : RawUdt) : List RawMember :=
  match u.children with
  | .ok members => members
  | _ => []

/-- The well-formed members of a type record, in enumeration order. -/
def RawUdt.wellFormedMembers (u : RawUdt) : List StructMember :=
  u.memberStream.filterMap RawMember.wellFormed

/-- The type record answers a lookup of `name`: its name is readable, not empty and equal
to `name`, and neither `get_length` nor `findChildren` throws on it. -/
def RawUdt.hit (name : Name) (u : RawUdt) : Bool :=
  decide (u.name = .ok name ∧ name ≠ "" ∧ u.length ≠ .raised ∧ u.children ≠ .raised)

/-- A member list is non-decreasing in offset. -/
def SortedByOffset (l : List StructMember) : Prop :=
  List.Pairwise (fun a b => a.offset ≤ b.offset) l

/-- The two caches of a parser. -/
structure Caches where
  m_symbolCache : UMap Nat
  m_structCache : UMap StructInfo
deriving DecidableEq, Repr

/-- A call of a public member function of `PdbParser`, as far as the caches go.
`DumpToJson` touches the structure cache through `GetStructInfo` only, once per structure
name; `FindSymbolsByPattern` and the functions left out (`GetAllPublicSymbols`,
`GetAllStructNames`, the getters) name neither cache. -/
inductive Call where
  | getSymbolRva (symbolName : Name)
  | preloadSymbols
  | getStructInfo (structName : Name)
  | getStructMemberOffset (structName memberName : Name)
  | preloadStructures
  | clearCaches
  | findSymbolsByPattern (pattern : Name)
  | dumpToJson (opens : Bool)
deriving DecidableEq, Repr

/-- The caches after one call. -/
def Call.run (p : Provider) (c : Caches) : Call → Caches
  | .getSymbolRva symbolName => { c with m_symbolCache := (GetSymbolRva p c.m_symbolCache symbolName).2 }
  | .preloadSymbols => { c with m_symbolCache := PreloadSymbols p c.m_symbolCache }
  | .getStructInfo structName =>
    { c with m_structCache := (GetStructInfo p c.m_structCache structName).2 }
  | .getStructMemberOffset structName memberName =>
    { c with m_structCache := (GetStructMemberOffset p c.m_structCache structName memberName).2 }
  | .preloadStructures => { c with m_structCache := PreloadStructures p c.m_structCache }
  | .clearCaches =>
    ⟨(ClearCaches c.m_symbolCache c.m_structCache).1, (ClearCaches c.m_symbolCache c.m_structCache).2⟩
  | .findSymbolsByPattern _ => c
  -- the cache after `DumpToJson` does not depend on path, machine type and `uninit`
  | .dumpToJson opens =>
    { c with
      m_structCache :=
        (DumpToJson ⟨p, 0, "", c.m_symbolCache, c.m_structCache⟩ opens
          (fun _ => 0)).2.2.m_structCache }

/-- The caches of a parser created over `p` after a sequence of calls. -/
def runCalls (p : Provider) (calls : List Call) : Caches :=
  calls.foldl (Call.run p) ⟨[], []⟩

/-- Every record held by a structure cache has its members in non-decreasing order of
offset. -/
def StructCacheSorted (cache : UMap StructInfo) : Prop :=
  ∀ e ∈ cache, SortedByOffset e.2.members

/-- A provider with one structure `S` whose members come at offsets 8, 0, 4. -/
def layoutProvider : Provider :=
  ⟨none, some [⟨.ok "S", .ok 12, .ok [.mk4 "c" 8 4 0, .mk4 "a" 0 4 0, .mk4 "b" 4 4 0]⟩]⟩

/-- A provider with two type records named `S`; `get_length` throws on the first. -/
def raisingTypes : Provider :=
  ⟨none, some [⟨.ok "S", .raised, .ok [.mk4 "x" 0 4 0]⟩, ⟨.ok "S", .ok 8, .ok [.mk4 "y" 4 4 0]⟩]⟩

/-- A provider with one type record whose name is empty. -/
def unnamedType : Provider :=
  ⟨none, some [⟨.ok "", .ok 8, .ok [.mk4 "y" 4 4 0]⟩]⟩

/-- The well-formed records of the stream whose name the compiled pattern matches, in
enumeration order. -/
def Provider.matchingSymbols (p : Provider) (regex_search : Name → Bool) : List SymbolInfo :=
  p.wellFormedSymbols.filter (fun s => regex_search s.name)

/-- An atom of a simple pattern: a literal character or `.`. -/
inductive Atom where
  | chr (c : Char)
  | any
deriving DecidableEq, Repr

/-- A piece of a simple pattern: an atom, possibly followed by `*`. -/
structure Piece where
  atom : Atom
  star : Bool
deriving DecidableEq, Repr

/-- Case-insensitive acceptance of one character; `.` accepts all but line terminators. -/
def Atom.accepts (a : Atom) (c : Char) : Bool :=
  match a with
  | .chr d => decide (c.toLower = d.toLower)
  | .any => !(c = '\n' || c = '\r' || c = Char.ofNat 0x2028 || c = Char.ofNat 0x2029)

/-- One step of reading a simple pattern, pieces kept in reverse: `*` stars the last piece
and is an error with nothing to repeat; the other ECMAScript metacharacters are outside
the fragment and rejected. -/
def readPiece (acc : Option (List Piece)) (c : Char) : Option (List Piece) :=
  match acc with
  | none => none
  | some pieces =>
    if c = '*' then
      match pieces with
      | ⟨a, false⟩ :: rest => some (⟨a, true⟩ :: rest)
      | _ => none
    else if c = '.' then some (⟨.any, false⟩ :: pieces)
    else if c ∈ ['(', ')', '[', ']', '\x7b', '\x7d', '\\', '+', '?', '|', '^', '$'] then none
    else some (⟨.chr c, false⟩ :: pieces)

/-- The pieces of a simple pattern, `none` on a syntax error. -/
def readPattern (pattern : Name) : Option (List Piece) :=
  (pattern.data.foldl readPiece (some [])).map List.reverse

/-- The repetition `a*` followed by the rest `k` of the pattern. -/
def starLoop (a : Atom) (k : List Char → Bool) : List Char → Bool
  | [] => k []
  | c :: cs => k (c :: cs) || (a.accepts c && starLoop a k cs)

/-- The pieces match a prefix of the text. -/
def matchPieces : List Piece → List Char → Bool
  | [], _ => true
  | ⟨a, false⟩ :: ps, s =>
    match s with
    | [] => false
    | c :: cs => a.accepts c && matchPieces ps cs
  | ⟨a, true⟩ :: ps, s => starLoop a (matchPieces ps) s

/-- The pieces match somewhere in the text. -/
def searchPieces (ps : List Piece) : List Char → Bool
  | [] => matchPieces ps []
  | c :: cs => matchPieces ps (c :: cs) || searchPieces ps cs

/-- A regular expression engine for the fragment of ECMAScript patterns built from literal
characters, `.` and `*`, matched case-insensitively; it serves the examples. -/
def simpleEngine : RegexEngine :=
  ⟨fun pattern => (readPattern pattern).map (fun ps name => searchPieces ps name.data)⟩

/-- The provider of the pattern example: `CreateFileW`, `OpenFile`, `RecreateIndex`. -/
def createProvider : Provider :=
  ⟨some [.mk4 "CreateFileW" 0x10 1 0, .mk4 "OpenFile" 0x20 1 0, .mk4 "RecreateIndex" 0x30 1 0],
    none⟩

/-- The name of a provider record is matched by the compiled pattern and the record is
well-formed. -/
def RawSymbol.matchedBy (regex_search : Name → Bool) (r : RawSymbol) : Bool :=
  match r.wellFormed with
  | some s => regex_search s.name
  | none => false

/-- The provider whose symbol stream consists of exactly the first 200 matching symbols of
the stream of `p`. -/
def Provider.firstMatches (p : Provider) (regex_search : Name → Bool) : Provider :=
  ⟨some ((p.symbolStream.filter (RawSymbol.matchedBy regex_search)).take 200), p.udts⟩

/-- The state of a parser right after a successful construction: both caches empty. -/
def PdbParser.opened (scope : Provider) (machineType : Nat) (pdbPath : Name) : PdbParser :=
  ⟨scope, machineType, pdbPath, [], []⟩

/-- The two caches of a parser object. -/
def PdbParser.caches (self : PdbParser) : Caches := ⟨self.m_symbolCache, self.m_structCache⟩

/-- The parser object after `ClearCaches`. -/
def PdbParser.clearCaches (self : PdbParser) : PdbParser :=
  { self with
    m_symbolCache := (ClearCaches self.m_symbolCache self.m_structCache).1
    m_structCache := (ClearCaches self.m_symbolCache self.m_structCache).2 }

/-- The parser object after one call. -/
def PdbParser.call (self : PdbParser) (call : Call) : PdbParser :=
  { self with
    m_symbolCache := (call.run self.m_pGlobalScope self.caches).m_symbolCache
    m_structCache := (call.run self.m_pGlobalScope self.caches).m_structCache }

/-- The parser object after a sequence of calls. -/
def PdbParser.calls (self : PdbParser) (calls : List Call) : PdbParser :=
  calls.foldl PdbParser.call self

/-- `FindSymbolsByPattern` as a member function: the result and the parser object after
the call. The function names neither cache. -/
def PdbParser.findSymbolsByPattern (rx : RegexEngine) (self : PdbParser) (pattern : Name) :
    List SymbolInfo × PdbParser :=
  (FindSymbolsByPattern rx self.m_pGlobalScope pattern, self)

/-- Every record held by a structure cache is the record `ParseStructInternal` builds for
its key from the provider. -/
def StructCacheCoherent (p : Provider) (cache : UMap StructInfo) : Prop :=
  ∀ e ∈ cache, (ParseStructInternal p [] e.1).1 = some e.2

/-- A provider with two well-formed records named `A`, at 0x100 and at 0x200. -/
def duplicateProvider : Provider :=
  ⟨some [.mk4 "A" 0x100 0 0, .mk4 "A" 0x200 0 0], none⟩

/-- A provider with a structure `S` of size 4 and a member at offset 8. -/
def outOfBoundsProvider : Provider :=
  ⟨none, some [⟨.ok "S", .ok 4, .ok [.mk4 "m" 8 4 0]⟩]⟩

/-- A parser over a symbol, a structure and a member whose names hold a quote or a
backslash. -/
def quoteParser : PdbParser :=
  PdbParser.opened
    ⟨some [.mk4 "q\"s\\t" 0x1f 8 3], some [⟨.ok "S\"1", .ok 12, .ok [.mk4 "m\\1" 4 4 7]⟩]⟩
    0x8664 "x.pdb"

/-- The entry with added and removed exchanged and the two addresses exchanged. -/
def SymbolDiff.swap (d : SymbolDiff) : SymbolDiff :=
  ⟨d.name, d.newRva, d.oldRva, d.removed, d.added, d.changed⟩

/-- A provider whose only record is the well-formed `b` with rva 2. -/
def singleBProvider : Provider :=
  ⟨some [.mk4 "b" 2 0 0], none⟩

/-- A provider whose only record has the name `x`, the rva 3 and an unreadable length. -/
def unreadableLengthProvider : Provider :=
  ⟨some [⟨.ok "x", .ok 3, .failed, .ok 0⟩], none⟩

/-- A necessary condition for a text to be a JSON document: every backslash is followed by
one of the escape characters of a JSON string (outside strings JSON has no backslash). -/
def legalEscapes : List Char → Bool
  | [] => true
  | c :: rest =>
    if c = '\\' then
      match rest with
      | [] => false
      | d :: rest' =>
        decide (d ∈ ['"', '\\', '/', 'b', 'f', 'n', 'r', 't', 'u']) && legalEscapes rest'
    else legalEscapes rest

/-- A parser opened on a Windows path, over a database without symbols and types. -/
def windowsPathParser : PdbParser :=
  PdbParser.opened ⟨some [], some []⟩ 0x8664 "C:\\pdb\\a.pdb"

/-- A host where `a.pdb` and `c.pdb` open and every other database fails to open; output
files open; the stem of a path is what stands before its first dot. -/
def batchHost : Host :=
  ⟨fun path =>
      if path = "a.pdb" then some ⟨diffOldA, some 0x8664⟩
      else if path = "c.pdb" then some ⟨layoutProvider, none⟩
      else none,
    fun _ => true,
    fun path => String.mk (path.data.takeWhile (fun c => c != '.')),
    fun _ => 0⟩

/-- What `ProcessMultiplePdbs` writes for one path: the text that `DumpToJson` of a new
parser over the path writes, under the name `<outputDir>\<stem>_analysis.json`, when the
parser opens and the output file opens; nothing otherwise. -/
def exportOf (host : Host) (outputDir : Name) (pdbFile : Name) : Option (Name × String) :=
  match PdbParser.construct host pdbFile with
  | none => none
  | some parser =>
    if host.opens (outputDir ++ "\\" ++ host.stem pdbFile ++ "_analysis.json") then
      some (outputDir ++ "\\" ++ host.stem pdbFile ++ "_analysis.json",
        (DumpToJson parser true host.uninit).2.1)
    else none

/-- The text a file holds after a sequence of writes, each of which opens the file anew
and so replaces what it held: the text of the last write to the path, `none` when the
sequence has no write to it. -/
def fileAfter (written : List (Name × String)) (path : Name) : Option String :=
  written.foldl (fun content w => if w.1 = path then some w.2 else content) none

/-- The stem of a path: what stands after its last backslash and before the first dot
after that. -/
def stemOf (path : Name) : Name :=
  String.mk (((path.data.reverse.takeWhile (fun c => c != '\\')).reverse).takeWhile
    (fun c => c != '.'))

/-- A host where `x\s.pdb` and `y\s.pdb` open, on different databases, and every other
database fails to open; output files open. -/
def sameStemHost : Host :=
  ⟨fun path =>
      if path = "x\\s.pdb" then some ⟨diffOldA, some 0x8664⟩
      else if path = "y\\s.pdb" then some ⟨layoutProvider, none⟩
      else none,
    fun _ => true,
    stemOf,
    fun _ => 0⟩

theorem length_pos_iff_ne_empty (s : String) : 0 < s.length ↔ s ≠ "" := by
  rw [Nat.pos_iff_ne_zero]
  constructor
  · intro h e
    subst e
    exact h rfl
  · intro h e
    apply h
    cases s with
    | mk d =>
      simp only [String.length, List.length_eq_zero] at e
      subst e
      rfl

theorem WStringToString_eq (w : Name) : WStringToString w = w := by
  unfold WStringToString
  split
  · rename_i h
    exact h.symm
  · rfl

theorem sortInsert_perm {α : Type} (lt : α → α → Bool) (x : α) (l : List α) :
    (sortInsert lt x l).Perm (x :: l) := by
  induction l with
  | nil => exact List.Perm.refl _
  | cons y ys ih =>
    unfold sortInsert
    split
    · exact ((List.Perm.cons y ih).trans (List.Perm.swap x y ys))
    · exact List.Perm.refl _

theorem stdSort_perm {α : Type} (lt : α → α → Bool) (l : List α) : (stdSort lt l).Perm l := by
  induction l with
  | nil => exact List.Perm.refl _
  | cons x xs ih =>
    unfold stdSort
    exact (sortInsert_perm lt x _).trans (List.Perm.cons x ih)

theorem stdSort_length {α : Type} (lt : α → α → Bool) (l : List α) :
    (stdSort lt l).length = l.length :=
  (stdSort_perm lt l).length_eq

theorem sortInsert_pairwise {α : Type} (key : α → Nat) (x : α) (l : List α)
    (h : List.Pairwise (fun a b => key a ≤ key b) l) :
    List.Pairwise (fun a b => key a ≤ key b)
      (sortInsert (fun a b => decide (key a < key b)) x l) := by
  induction l with
  | nil => simp [sortInsert]
  | cons y ys ih =>
    rw [List.pairwise_cons] at h
    unfold sortInsert
    split
    · rename_i hlt
      have hyx : key y < key x := by simpa using hlt
      rw [List.pairwise_cons]
      refine ⟨?_, ih h.2⟩
      intro z hz
      rcases List.mem_cons.mp ((sortInsert_perm _ x ys).mem_iff.mp hz) with e | e
      · rw [e]
        exact Nat.le_of_lt hyx
      · exact h.1 z e
    · rename_i hlt
      have hxy : key x ≤ key y := by simpa using hlt
      rw [List.pairwise_cons]
      refine ⟨?_, List.pairwise_cons.mpr h⟩
      intro z hz
      rcases List.mem_cons.mp hz with e | e
      · subst e; exact hxy
      · exact Nat.le_trans hxy (h.1 z e)

theorem stdSort_pairwise {α : Type} (key : α → Nat) (l : List α) :
    List.Pairwise (fun a b => key a ≤ key b)
      (stdSort (fun a b => decide (key a < key b)) l) := by
  induction l with
  | nil => simp [stdSort]
  | cons x xs ih =>
    unfold stdSort
    exact sortInsert_pairwise key x _ ih

theorem decodeSymbol_eq (r : RawSymbol) : decodeSymbol r = r.wellFormed := by
  obtain ⟨n, a, l, t⟩ := r
  cases n <;> cases a <;> cases l <;> cases t <;>
    simp [decodeSymbol, RawSymbol.wellFormed, WStringToString_eq, length_pos_iff_ne_empty]
  intro h
  simp [h]

theorem publicSymbolCallback_eq (acc : List SymbolInfo) (r : RawSymbol) :
    publicSymbolCallback acc r
      = match r.wellFormed with
        | some info => (acc ++ [info], decide ((acc ++ [info]).length < 5000))
        | none => (acc, decide (acc.length < 5000)) := by
  unfold publicSymbolCallback
  rw [decodeSymbol_eq]
  cases r.wellFormed <;> rfl

theorem enumLoop_publicSymbol (l : List RawSymbol) (acc : List SymbolInfo)
    (h : acc.length < 5000) :
    enumLoop publicSymbolCallback acc l
      = acc ++ (l.filterMap RawSymbol.wellFormed).take (5000 - acc.length) := by
  induction l generalizing acc with
  | nil => simp [enumLoop]
  | cons r rest ih =>
    obtain ⟨k, hk⟩ : ∃ k, 5000 - acc.length = k + 1 := ⟨5000 - acc.length - 1, by omega⟩
    unfold enumLoop
    rw [publicSymbolCallback_eq]
    cases hd : r.wellFormed with
    | none =>
      simp only [h, decide_True, List.filterMap_cons, hd]
      exact ih acc h
    | some info =>
      simp only [List.filterMap_cons, hd]
      by_cases hlt : (acc ++ [info]).length < 5000
      · simp only [hlt, decide_True]
        rw [ih _ hlt, hk, List.take_succ_cons]
        have hk' : 5000 - (acc ++ [info]).length = k := by
          simp only [List.length_append, List.length_singleton]
          omega
        rw [hk', List.append_assoc]
        rfl
      · simp only [hlt, decide_False]
        have hk0 : k = 0 := by
          simp only [List.length_append, List.length_singleton] at hlt
          omega
        rw [hk, hk0, List.take_succ_cons, List.take_zero]

theorem collected_eq (p : Provider) :
    (EnumerateSymbols p.publicSymbols publicSymbolCallback []).1
      = p.wellFormedSymbols.take 5000 := by
  unfold EnumerateSymbols Provider.wellFormedSymbols Provider.symbolStream
  cases p.publicSymbols with
  | none => simp
  | some l =>
    simp only [Option.getD_some]
    rw [enumLoop_publicSymbol l [] (by simp)]
    simp

theorem GetAllPublicSymbols_eq (p : Provider) :
    GetAllPublicSymbols p
      = stdSort (fun a b => decide (a.rva < b.rva)) (p.wellFormedSymbols.take 5000) := by
  unfold GetAllPublicSymbols
  rw [collected_eq]

theorem GetAllPublicSymbols_perm (p : Provider) :
    (GetAllPublicSymbols p).Perm (p.wellFormedSymbols.take 5000) := by
  rw [GetAllPublicSymbols_eq]
  exact stdSort_perm _ _

theorem GetAllPublicSymbols_sorted (p : Provider) : SortedByRva (GetAllPublicSymbols p) := by
  rw [GetAllPublicSymbols_eq]
  exact stdSort_pairwise (fun s : SymbolInfo => s.rva) _

theorem GetAllPublicSymbols_length (p : Provider) :
    (GetAllPublicSymbols p).length = min 5000 p.wellFormedSymbols.length := by
  rw [(GetAllPublicSymbols_perm p).length_eq, List.length_take]

theorem wellFormedSymbols_repeated (n : Nat) :
    (repeatedProvider n).wellFormedSymbols = List.replicate n ⟨"sym", 16, 4, 0⟩ := by
  unfold repeatedProvider Provider.wellFormedSymbols Provider.symbolStream
  simp only [Option.getD_some, List.filterMap_replicate]
  have : (RawSymbol.mk4 "sym" 16 4 0).wellFormed = some ⟨"sym", 16, 4, 0⟩ := by decide
  rw [this]

theorem UMap.find_assign {β : Type} (m : UMap β) (k k' : Name) (v : β) :
    (m.assign k v).find k' = if k = k' then some v else m.find k' := by
  induction m with
  | nil => simp [UMap.assign, UMap.find]
  | cons e rest ih =>
    obtain ⟨a, b⟩ := e
    unfold UMap.assign
    by_cases h : a = k
    · subst h
      by_cases h' : a = k' <;> simp [UMap.find, h']
    · by_cases h' : a = k'
      · subst h'
        simp [UMap.find, h, Ne.symm h]
      · simp [UMap.find, h, h', ih]

theorem UMap.keys_assign {β : Type} (m : UMap β) (k : Name) (v : β) :
    (m.assign k v).map Prod.fst
      = if k ∈ m.map Prod.fst then m.map Prod.fst else m.map Prod.fst ++ [k] := by
  induction m with
  | nil => simp [UMap.assign]
  | cons e rest ih =>
    obtain ⟨a, b⟩ := e
    unfold UMap.assign
    by_cases h : a = k
    · subst h
      simp
    · have h' : ¬ k = a := fun e => h e.symm
      simp only [h, if_false, List.map_cons, List.mem_cons, h', false_or, ih]
      split <;> simp

theorem UMap.nodup_assign {β : Type} (m : UMap β) (k : Name) (v : β)
    (h : (m.map Prod.fst).Nodup) : ((m.assign k v).map Prod.fst).Nodup := by
  rw [UMap.keys_assign]
  split
  · exact h
  · rename_i hk
    exact List.nodup_append.mpr ⟨h, List.nodup_singleton k, by
      intro a ha hb
      rw [List.mem_singleton] at hb
      exact hk (hb ▸ ha)⟩

theorem UMap.find_eq_none_iff {β : Type} (m : UMap β) (k : Name) :
    m.find k = none ↔ k ∉ m.map Prod.fst := by
  induction m with
  | nil => simp [UMap.find]
  | cons e rest ih =>
    obtain ⟨a, b⟩ := e
    by_cases h : a = k
    · simp [UMap.find, h]
    · have h' : ¬ k = a := fun e => h e.symm
      simp [UMap.find, h, h', ih]

theorem UMap.mem_of_find {β : Type} (m : UMap β) (k : Name) (v : β) (h : m.find k = some v) :
    (k, v) ∈ m := by
  induction m with
  | nil => simp [UMap.find] at h
  | cons e rest ih =>
    obtain ⟨a, b⟩ := e
    by_cases hk : a = k
    · simp only [UMap.find, hk, if_true, Option.some.injEq] at h
      simp [hk, h]
    · simp only [UMap.find, hk, if_false] at h
      exact List.mem_cons_of_mem _ (ih h)

theorem UMap.filter_key {β : Type} (m : UMap β) (n : Name) (h : (m.map Prod.fst).Nodup) :
    m.filter (fun e => decide (e.1 = n))
      = match m.find n with
        | some v => [(n, v)]
        | none => [] := by
  induction m with
  | nil => simp [UMap.find]
  | cons e rest ih =>
    obtain ⟨a, b⟩ := e
    rw [List.map_cons, List.nodup_cons] at h
    by_cases hk : a = n
    · subst hk
      have hnone : UMap.find rest a = none := (UMap.find_eq_none_iff rest a).mpr h.1
      have := ih h.2
      rw [hnone] at this
      simp [UMap.find, this]
    · simp only [List.filter_cons, hk, decide_False, UMap.find, if_false]
      exact ih h.2

theorem filter_name_filterMap (f : Name × Nat → Option SymbolDiff)
    (hf : ∀ e d, f e = some d → d.name = e.1) (m : UMap Nat) (n : Name) :
    (m.filterMap f).filter (fun d => decide (d.name = n))
      = (m.filter (fun e => decide (e.1 = n))).filterMap f := by
  induction m with
  | nil => simp
  | cons e rest ih =>
    cases hfe : f e with
    | none =>
      by_cases hk : e.1 = n
      · simp [List.filterMap_cons, hfe, List.filter_cons, hk, ih]
      · simp [List.filterMap_cons, hfe, List.filter_cons, hk, ih]
    | some d =>
      have hd := hf e d hfe
      by_cases hk : e.1 = n
      · simp [List.filterMap_cons, hfe, List.filter_cons, hk, hd, ih]
      · simp [List.filterMap_cons, hfe, List.filter_cons, hk, hd, ih]

theorem buildMap_fold_nodup (l : List SymbolInfo) (acc : UMap Nat)
    (h : (acc.map Prod.fst).Nodup) :
    ((l.foldl (fun m sym => m.assign sym.name sym.rva) acc).map Prod.fst).Nodup := by
  induction l generalizing acc with
  | nil => exact h
  | cons s rest ih => exact ih _ (UMap.nodup_assign acc s.name s.rva h)

theorem buildMap_nodup (l : List SymbolInfo) : ((buildMap l).map Prod.fst).Nodup :=
  buildMap_fold_nodup l [] List.nodup_nil

theorem find_buildMap_fold (l : List SymbolInfo) (acc : UMap Nat) (n : Name) :
    (l.foldl (fun m sym => m.assign sym.name sym.rva) acc).find n
      = match lastRva l n with
        | some v => some v
        | none => acc.find n := by
  induction l generalizing acc with
  | nil => simp [lastRva]
  | cons s rest ih =>
    rw [List.foldl_cons, ih, lastRva]
    cases lastRva rest n with
    | some v => rfl
    | none =>
      rw [UMap.find_assign]
      by_cases hs : s.name = n <;> simp [hs]

theorem find_buildMap (l : List SymbolInfo) (n : Name) :
    (buildMap l).find n = lastRva l n := by
  unfold buildMap
  rw [find_buildMap_fold]
  cases lastRva l n <;> rfl

theorem lastRva_eq_none_iff (l : List SymbolInfo) (n : Name) :
    lastRva l n = none ↔ n ∉ l.map (fun s => s.name) := by
  induction l with
  | nil => simp [lastRva]
  | cons s rest ih =>
    rw [lastRva]
    cases h : lastRva rest n with
    | some v =>
      have : n ∈ rest.map (fun s => s.name) := by
        by_contra hc
        rw [ih.mpr hc] at h
        cases h
      simp [this]
    | none =>
      have hn := ih.mp h
      by_cases hs : s.name = n
      · simp [hs]
      · have hs' : ¬ n = s.name := fun e => hs e.symm
        simpa [hs, hs'] using hn

theorem lastRva_mem (l : List SymbolInfo) (n : Name) (v : Nat) (h : lastRva l n = some v) :
    ∃ s ∈ l, s.name = n ∧ s.rva = v := by
  induction l with
  | nil => simp [lastRva] at h
  | cons s rest ih =>
    rw [lastRva] at h
    cases hr : lastRva rest n with
    | some w =>
      rw [hr] at h
      obtain ⟨s', hs', hn⟩ := ih (hr.trans h)
      exact ⟨s', List.mem_cons_of_mem _ hs', hn⟩
    | none =>
      rw [hr] at h
      by_cases hs : s.name = n
      · simp only [hs, if_true, Option.some.injEq] at h
        exact ⟨s, List.mem_cons_self _ _, hs, h⟩
      · simp [hs] at h

theorem lastRva_of_nodup (l : List SymbolInfo) (h : (l.map (fun s => s.name)).Nodup)
    (s : SymbolInfo) (hs : s ∈ l) : lastRva l s.name = some s.rva := by
  cases hr : lastRva l s.name with
  | none =>
    exact absurd (List.mem_map_of_mem (fun s => s.name) hs) ((lastRva_eq_none_iff l s.name).mp hr)
  | some v =>
    obtain ⟨s', hs', hn, hv⟩ := lastRva_mem l s.name v hr
    have : s' = s := List.inj_on_of_nodup_map h hs' hs hn
    rw [← hv, this]

theorem compareSymbols_named (oldSymbols newSymbols : List SymbolInfo) (n : Name) :
    (compareSymbols oldSymbols newSymbols).filter (fun d => decide (d.name = n))
      = match lastRva oldSymbols n, lastRva newSymbols n with
        | some ov, none => [⟨n, ov, 0, false, true, false⟩]
        | none, some nv => [⟨n, 0, nv, true, false, false⟩]
        | some ov, some nv => if ov ≠ nv then [⟨n, ov, nv, false, false, true⟩] else []
        | none, none => [] := by
  unfold compareSymbols removedLoop addedChangedLoop
  simp only [List.filter_append]
  rw [filter_name_filterMap _ _ _ n, filter_name_filterMap _ _ _ n,
    UMap.filter_key _ n (buildMap_nodup _), UMap.filter_key _ n (buildMap_nodup _),
    find_buildMap, find_buildMap]
  · cases ho : lastRva oldSymbols n <;> cases hn : lastRva newSymbols n <;>
      simp [find_buildMap, ho, hn]
    split <;> simp_all
  · intro e d h
    obtain ⟨k, v⟩ := e
    simp only at h
    split at h
    · cases h; rfl
    · split at h
      · cases h; rfl
      · cases h
  · intro e d h
    obtain ⟨k, v⟩ := e
    simp only at h
    split at h
    · cases h; rfl
    · cases h

theorem symbolRvaCallback_eq (name : Name) (st : Nat × Bool) (r : RawSymbol) :
    symbolRvaCallback name st r
      = match r.answer name with
        | some v => ((v, true), false)
        | none => (st, true) := by
  obtain ⟨n, a, l, t⟩ := r
  cases n <;> cases a <;>
    simp [symbolRvaCallback, RawSymbol.answer, RawSymbol.nameAndRva, length_pos_iff_ne_empty]
  all_goals
    rename_i nm _
    by_cases h1 : nm = "" <;> by_cases h2 : name = nm <;>
      simp [h1, h2, eq_comm]

theorem enumLoop_symbolRva (name : Name) (l : List RawSymbol) (st : Nat × Bool) :
    enumLoop (symbolRvaCallback name) st l
      = match firstAnswer l name with
        | some v => (v, true)
        | none => st := by
  induction l generalizing st with
  | nil => simp [enumLoop, firstAnswer]
  | cons r rest ih =>
    unfold enumLoop
    rw [symbolRvaCallback_eq]
    unfold firstAnswer
    rw [List.findSome?_cons]
    cases hr : r.answer name with
    | some v => rfl
    | none =>
      simp only
      exact ih st

theorem scan_eq (p : Provider) (name : Name) :
    (EnumerateSymbols p.publicSymbols (symbolRvaCallback name) (0, false)).1
      = match firstAnswer p.symbolStream name with
        | some v => (v, true)
        | none => (0, false) := by
  unfold EnumerateSymbols Provider.symbolStream
  cases p.publicSymbols with
  | none => simp [firstAnswer]
  | some l =>
    simp only [Option.getD_some]
    exact enumLoop_symbolRva name l (0, false)

theorem GetSymbolRva_miss (p : Provider) (cache : UMap Nat) (name : Name)
    (h : cache.find name = none) :
    GetSymbolRva p cache name
      = match firstAnswer p.symbolStream name with
        | some v => (some v, cache.assign name v)
        | none => (none, cache) := by
  unfold GetSymbolRva
  rw [h]
  simp only
  rw [scan_eq]
  cases firstAnswer p.symbolStream name <;> rfl

theorem firstAnswer_eq_some_iff (stream : List RawSymbol) (name : Name) (v : Nat) :
    firstAnswer stream name = some v ↔
      ∃ before r after, stream = before ++ r :: after ∧ r.answer name = some v ∧
        ∀ x ∈ before, x.answer name = none := by
  induction stream with
  | nil => simp [firstAnswer]
  | cons a rest ih =>
    unfold firstAnswer at ih ⊢
    rw [List.findSome?_cons]
    cases ha : a.answer name with
    | some w =>
      simp only [Option.some.injEq]
      constructor
      · intro h
        exact ⟨[], a, rest, rfl, by rw [ha, h], by simp⟩
      · rintro ⟨before, r, after, heq, hr, hb⟩
        cases before with
        | nil =>
          simp only [List.nil_append, List.cons.injEq] at heq
          rw [← heq.1, ha] at hr
          exact Option.some.inj hr
        | cons b bs =>
          simp only [List.cons_append, List.cons.injEq] at heq
          have := hb b (List.mem_cons_self _ _)
          rw [← heq.1, ha] at this
          cases this
    | none =>
      simp only
      rw [ih]
      constructor
      · rintro ⟨before, r, after, heq, hr, hb⟩
        refine ⟨a :: before, r, after, by rw [heq]; rfl, hr, ?_⟩
        intro x hx
        rcases List.mem_cons.mp hx with e | e
        · rw [e]; exact ha
        · exact hb x e
      · rintro ⟨before, r, after, heq, hr, hb⟩
        cases before with
        | nil =>
          simp only [List.nil_append, List.cons.injEq] at heq
          rw [← heq.1, ha] at hr
          cases hr
        | cons b bs =>
          simp only [List.cons_append, List.cons.injEq] at heq
          exact ⟨bs, r, after, heq.2, hr, fun x hx => hb x (List.mem_cons_of_mem _ hx)⟩

theorem answer_eq_some_iff (name : Name) (r : RawSymbol) (v : Nat) :
    r.answer name = some v ↔
      r.undecoratedName = .ok name ∧ name ≠ "" ∧ r.relativeVirtualAddress = .ok v := by
  obtain ⟨n, a, l, t⟩ := r
  cases n <;> cases a <;> simp [RawSymbol.answer, RawSymbol.nameAndRva]
  rename_i nm w
  by_cases h1 : nm = ""
  · simp only [h1, if_true]
    constructor
    · intro h; cases h
    · rintro ⟨e, ne, _⟩
      exact absurd e.symm ne
  · simp only [h1, if_false]
    by_cases h2 : nm = name
    · subst h2
      simp [h1]
    · simp [h2]

theorem answer_eq_none_iff (name : Name) (r : RawSymbol) :
    r.answer name = none ↔
      ¬ (r.undecoratedName = .ok name ∧ name ≠ "" ∧ ∃ w, r.relativeVirtualAddress = .ok w) := by
  constructor
  · rintro h ⟨h1, h2, w, h3⟩
    rw [(answer_eq_some_iff name r w).mpr ⟨h1, h2, h3⟩] at h
    cases h
  · intro h
    cases hr : r.answer name with
    | none => rfl
    | some v =>
      obtain ⟨h1, h2, h3⟩ := (answer_eq_some_iff name r v).mp hr
      exact absurd ⟨h1, h2, v, h3⟩ h

theorem nameAndRva_of_wellFormed (r : RawSymbol) (s : SymbolInfo) (h : r.wellFormed = some s) :
    r.nameAndRva = some (s.name, s.rva) := by
  obtain ⟨n, a, l, t⟩ := r
  cases n <;> cases a <;> cases l <;> cases t <;>
    simp [RawSymbol.wellFormed, RawSymbol.nameAndRva] at h ⊢
  rename_i nm _ _ _
  by_cases h1 : nm = ""
  · simp [h1] at h
  · simp only [h1, if_false, Option.some.injEq] at h ⊢
    obtain ⟨_, h⟩ := h
    subst h
    simp

theorem mem_readable_of_wellFormed (p : Provider) (s : SymbolInfo)
    (h : s ∈ p.wellFormedSymbols) :
    (s.name, s.rva) ∈ p.symbolStream.filterMap RawSymbol.nameAndRva := by
  unfold Provider.wellFormedSymbols at h
  obtain ⟨r, hr, hs⟩ := List.mem_filterMap.mp h
  exact List.mem_filterMap.mpr ⟨r, hr, nameAndRva_of_wellFormed r s hs⟩

theorem answer_of_nameAndRva (r : RawSymbol) (n : Name) (v : Nat)
    (h : r.nameAndRva = some (n, v)) : r.answer n = some v := by
  unfold RawSymbol.answer
  rw [h]
  simp

theorem nameAndRva_of_answer (r : RawSymbol) (n : Name) (v : Nat)
    (h : r.answer n = some v) : r.nameAndRva = some (n, v) := by
  unfold RawSymbol.answer at h
  cases hr : r.nameAndRva with
  | none => rw [hr] at h; cases h
  | some e =>
    obtain ⟨k, w⟩ := e
    rw [hr] at h
    by_cases hk : k = n
    · simp only [hk, if_true, Option.some.injEq] at h
      rw [hk, h]
    · simp [hk] at h

theorem firstAnswer_ne_none (stream : List RawSymbol) (n : Name) (v : Nat)
    (h : (n, v) ∈ stream.filterMap RawSymbol.nameAndRva) :
    firstAnswer stream n ≠ none := by
  obtain ⟨r, hr, hs⟩ := List.mem_filterMap.mp h
  intro hnone
  unfold firstAnswer at hnone
  have := List.findSome?_eq_none_iff.mp hnone r hr
  rw [answer_of_nameAndRva r n v hs] at this
  cases this

theorem value_unique_of_nodup_keys {β : Type} (m : List (Name × β))
    (h : (m.map Prod.fst).Nodup) (k : Name) (v w : β) (hv : (k, v) ∈ m) (hw : (k, w) ∈ m) :
    v = w := by
  have := List.inj_on_of_nodup_map h hv hw rfl
  exact (Prod.mk.inj this).2

theorem fillerName_ne_empty (i : Nat) : fillerName i ≠ "" := by
  intro h
  have := congrArg String.length h
  simp [fillerName, String.length] at this

theorem fillerName_ne_b (i : Nat) : fillerName i ≠ "b" := by
  intro h
  have h' : (fillerName i).data = ("b" : String).data := congrArg String.data h
  simp only [fillerName, List.replicate_succ] at h'
  have h2 : ('a' : Char) = 'b' := (List.cons.inj h').1
  exact absurd h2 (by decide)

theorem wellFormed_filler (n : Nat) :
    (filler n).filterMap RawSymbol.wellFormed
      = (List.range n).map (fun i => (⟨fillerName i, i, 0, 0⟩ : SymbolInfo)) := by
  unfold filler
  rw [List.filterMap_map]
  have : (RawSymbol.wellFormed ∘ fun i => RawSymbol.mk4 (fillerName i) i 0 0)
      = fun i => some (⟨fillerName i, i, 0, 0⟩ : SymbolInfo) := by
    funext i
    simp [RawSymbol.wellFormed, RawSymbol.mk4, fillerName_ne_empty]
  rw [this]
  exact congrFun (List.filterMap_eq_map
    (fun i => (⟨fillerName i, i, 0, 0⟩ : SymbolInfo))) (List.range n)

theorem wellFormedSymbols_overfull :
    overfullProvider.wellFormedSymbols
      = (List.range 5000).map (fun i => (⟨fillerName i, i, 0, 0⟩ : SymbolInfo))
        ++ [⟨"b", 2, 0, 0⟩] := by
  unfold overfullProvider Provider.wellFormedSymbols Provider.symbolStream
  simp only [Option.getD_some]
  rw [List.filterMap_append, wellFormed_filler]
  congr 1

theorem decodeMember_eq (m : RawMember) : decodeMember m = m.wellFormed := by
  obtain ⟨n, o, l, t⟩ := m
  cases n <;> cases o <;> cases l <;> cases t <;>
    simp [decodeMember, RawMember.wellFormed, WStringToString_eq, length_pos_iff_ne_empty]
  rename_i nm off _ _
  by_cases h : nm = ""
  · simp [h]
  · simp only [h, if_false, not_false_eq_true, true_implies, Option.some.injEq,
      StructMember.mk.injEq, and_true, true_and]
    split
    · rfl
    · rename_i hneg
      have : off < 0 := by omega
      exact (Int.toNat_eq_zero.mpr (by omega)).symm

theorem memberLoop_eq (ms : List RawMember) (acc : List StructMember) :
    memberLoop acc ms
      = acc ++ (ms.filterMap RawMember.wellFormed).take (100 - acc.length) := by
  induction ms generalizing acc with
  | nil => simp [memberLoop]
  | cons m rest ih =>
    unfold memberLoop
    rw [decodeMember_eq]
    by_cases hlt : acc.length < 100
    · obtain ⟨k, hk⟩ : ∃ k, 100 - acc.length = k + 1 := ⟨100 - acc.length - 1, by omega⟩
      simp only [hlt, if_true, List.filterMap_cons]
      cases hm : m.wellFormed with
      | none => exact ih acc
      | some x =>
        simp only
        rw [ih, hk, List.take_succ_cons]
        have hk' : 100 - (acc ++ [x]).length = k := by
          simp only [List.length_append, List.length_singleton]
          omega
        rw [hk', List.append_assoc]
        rfl
    · have h0 : 100 - acc.length = 0 := by omega
      simp [hlt, h0]

theorem memberLoop_nil (u : RawUdt) :
    memberLoop [] u.memberStream = u.wellFormedMembers.take 100 := by
  rw [memberLoop_eq]
  rfl

theorem parseStructCallback_miss (name : Name) (si : StructInfo) (u : RawUdt)
    (h : u.hit name = false) :
    ∃ si', parseStructCallback name (si, false) u = ((si', false), true) ∧
      si'.members = si.members := by
  obtain ⟨n, l, c⟩ := u
  unfold RawUdt.hit at h
  simp only [decide_eq_false_iff_not] at h
  unfold parseStructCallback
  cases n with
  | failed => exact ⟨si, rfl, rfl⟩
  | raised => exact ⟨si, rfl, rfl⟩
  | ok bstrName =>
    by_cases hne : bstrName = ""
    · exact ⟨si, by simp [length_pos_iff_ne_empty, hne], rfl⟩
    · by_cases heq : name = bstrName
      · subst heq
        cases l <;> cases c <;> simp [length_pos_iff_ne_empty, hne] at h ⊢
      · exact ⟨si, by simp [length_pos_iff_ne_empty, hne, heq], rfl⟩

theorem parseStructCallback_hit (name : Name) (si : StructInfo) (found : Bool) (u : RawUdt)
    (h : u.hit name = true) (hm : si.members = []) :
    ∃ sz, parseStructCallback name (si, found) u
        = ((⟨name, sz, u.wellFormedMembers.take 100⟩, true), false) ∧
      ∀ s, u.length = .ok s → sz = some s := by
  obtain ⟨n, l, c⟩ := u
  unfold RawUdt.hit at h
  simp only [decide_eq_true_eq] at h
  obtain ⟨h1, h2, h3, h4⟩ := h
  cases h1
  unfold parseStructCallback
  cases l with
  | raised => exact absurd rfl h3
  | failed =>
    cases c with
    | raised => exact absurd rfl h4
    | failed =>
      refine ⟨si.size, ?_, by intro s hs; cases hs⟩
      simp [length_pos_iff_ne_empty, h2, WStringToString_eq, RawUdt.wellFormedMembers,
        RawUdt.memberStream, hm]
    | ok ms =>
      refine ⟨si.size, ?_, by intro s hs; cases hs⟩
      simp [length_pos_iff_ne_empty, h2, WStringToString_eq, RawUdt.wellFormedMembers,
        RawUdt.memberStream, hm, memberLoop_eq]
  | ok s =>
    cases c with
    | raised => exact absurd rfl h4
    | failed =>
      refine ⟨some s, ?_, by intro s' hs; cases hs; rfl⟩
      simp [length_pos_iff_ne_empty, h2, WStringToString_eq, RawUdt.wellFormedMembers,
        RawUdt.memberStream, hm]
    | ok ms =>
      refine ⟨some s, ?_, by intro s' hs; cases hs; rfl⟩
      simp [length_pos_iff_ne_empty, h2, WStringToString_eq, RawUdt.wellFormedMembers,
        RawUdt.memberStream, hm, memberLoop_eq]

theorem enumLoop_parseStruct_none (name : Name) (l : List RawUdt) (si : StructInfo)
    (h : ∀ u ∈ l, u.hit name = false) :
    ∃ si', enumLoop (parseStructCallback name) (si, false) l = (si', false) := by
  induction l generalizing si with
  | nil => exact ⟨si, rfl⟩
  | cons u rest ih =>
    obtain ⟨si', hcb, _⟩ := parseStructCallback_miss name si u (h u (List.mem_cons_self _ _))
    unfold enumLoop
    rw [hcb]
    exact ih si' (fun x hx => h x (List.mem_cons_of_mem _ hx))

theorem enumLoop_parseStruct_some (name : Name) (before : List RawUdt) (u : RawUdt)
    (after : List RawUdt) (si : StructInfo) (hm : si.members = [])
    (hb : ∀ x ∈ before, x.hit name = false) (hu : u.hit name = true) :
    ∃ sz, enumLoop (parseStructCallback name) (si, false) (before ++ u :: after)
        = (⟨name, sz, u.wellFormedMembers.take 100⟩, true) ∧
      ∀ s, u.length = .ok s → sz = some s := by
  induction before generalizing si with
  | nil =>
    obtain ⟨sz, hcb, hsz⟩ := parseStructCallback_hit name si false u hu hm
    refine ⟨sz, ?_, hsz⟩
    simp only [List.nil_append]
    unfold enumLoop
    rw [hcb]
  | cons x rest ih =>
    obtain ⟨si', hcb, hm'⟩ := parseStructCallback_miss name si x (hb x (List.mem_cons_self _ _))
    simp only [List.cons_append]
    unfold enumLoop
    rw [hcb]
    exact ih si' (hm'.trans hm) (fun y hy => hb y (List.mem_cons_of_mem _ hy))

theorem ParseStructInternal_none (p : Provider) (cache : UMap StructInfo) (name : Name)
    (h : ∀ u ∈ p.typeStream, u.hit name = false) :
    ParseStructInternal p cache name = (none, cache) := by
  unfold ParseStructInternal EnumerateSymbols
  unfold Provider.typeStream at h
  cases hu : p.udts with
  | none => rfl
  | some l =>
    rw [hu] at h
    obtain ⟨si', hsi⟩ := enumLoop_parseStruct_none name l ⟨"", none, []⟩ h
    simp only [hsi]

theorem ParseStructInternal_some (p : Provider) (cache : UMap StructInfo) (name : Name)
    (before : List RawUdt) (u : RawUdt) (after : List RawUdt)
    (hs : p.typeStream = before ++ u :: after)
    (hb : ∀ x ∈ before, x.hit name = false) (hu : u.hit name = true) :
    ∃ sz, ParseStructInternal p cache name
        = (some ⟨name, sz, stdSort (fun a b => decide (a.offset < b.offset))
            (u.wellFormedMembers.take 100)⟩,
          cache.assign name ⟨name, sz, stdSort (fun a b => decide (a.offset < b.offset))
            (u.wellFormedMembers.take 100)⟩) ∧
      ∀ s, u.length = .ok s → sz = some s := by
  unfold ParseStructInternal EnumerateSymbols
  unfold Provider.typeStream at hs
  cases hq : p.udts with
  | none =>
    rw [hq] at hs
    simp at hs
  | some l =>
    rw [hq] at hs
    simp only [Option.getD_some] at hs
    obtain ⟨sz, hsz, hlen⟩ := enumLoop_parseStruct_some name before u after ⟨"", none, []⟩ rfl hb hu
    refine ⟨sz, ?_, hlen⟩
    simp only [hs, hsz]

theorem ParseStructInternal_cases (p : Provider) (cache : UMap StructInfo) (name : Name) :
    ParseStructInternal p cache name = (none, cache) ∨
    ∃ info, ParseStructInternal p cache name = (some info, cache.assign name info) ∧
      SortedByOffset info.members := by
  cases hf : p.typeStream.find? (RawUdt.hit name) with
  | none =>
    left
    apply ParseStructInternal_none
    intro u hu
    have := List.find?_eq_none.mp hf u hu
    simpa using this
  | some u =>
    right
    obtain ⟨hu, before, after, hs, hb⟩ := List.find?_eq_some.mp hf
    obtain ⟨sz, hsz, _⟩ := ParseStructInternal_some p cache name before u after hs
      (fun x hx => by simpa using hb x hx) hu
    exact ⟨_, hsz, stdSort_pairwise (fun m : StructMember => m.offset) _⟩

theorem UMap.mem_assign {β : Type} (m : UMap β) (k : Name) (v : β) (e : Name × β)
    (h : e ∈ m.assign k v) : e ∈ m ∨ e = (k, v) := by
  induction m with
  | nil =>
    right
    simpa [UMap.assign] using h
  | cons a rest ih =>
    obtain ⟨k', v'⟩ := a
    unfold UMap.assign at h
    by_cases hk : k' = k
    · simp only [hk, if_true, List.mem_cons] at h
      rcases h with h | h
      · exact Or.inr h
      · exact Or.inl (List.mem_cons_of_mem _ h)
    · simp only [hk, if_false, List.mem_cons] at h
      rcases h with h | h
      · exact Or.inl (h ▸ List.mem_cons_self _ _)
      · rcases ih h with h' | h'
        · exact Or.inl (List.mem_cons_of_mem _ h')
        · exact Or.inr h'

theorem UMap.find_of_mem {β : Type} (m : UMap β) (h : (m.map Prod.fst).Nodup) (k : Name)
    (v : β) (hm : (k, v) ∈ m) : m.find k = some v := by
  cases hf : m.find k with
  | none =>
    exact absurd (List.mem_map_of_mem Prod.fst hm) ((UMap.find_eq_none_iff m k).mp hf)
  | some w =>
    rw [value_unique_of_nodup_keys m h k w v (UMap.mem_of_find m k w hf) hm]

theorem StructCacheSorted_assign (cache : UMap StructInfo) (name : Name) (info : StructInfo)
    (hc : StructCacheSorted cache) (hi : SortedByOffset info.members) :
    StructCacheSorted (cache.assign name info) := by
  intro e he
  rcases UMap.mem_assign cache name info e he with h | h
  · exact hc e h
  · rw [h]
    exact hi

theorem StructCacheSorted_parse (p : Provider) (cache : UMap StructInfo) (name : Name)
    (hc : StructCacheSorted cache) :
    StructCacheSorted (ParseStructInternal p cache name).2 := by
  rcases ParseStructInternal_cases p cache name with h | ⟨info, h, hs⟩
  · rw [h]
    exact hc
  · rw [h]
    exact StructCacheSorted_assign cache name info hc hs

theorem GetStructInfo_sorted (p : Provider) (cache : UMap StructInfo) (name : Name)
    (hc : StructCacheSorted cache) (info : StructInfo)
    (h : (GetStructInfo p cache name).1 = some info) : SortedByOffset info.members := by
  unfold GetStructInfo at h
  cases hf : cache.find name with
  | some cached =>
    rw [hf] at h
    simp only [Option.some.injEq] at h
    rw [← h]
    exact hc _ (UMap.mem_of_find cache name cached hf)
  | none =>
    rw [hf] at h
    simp only at h
    rcases ParseStructInternal_cases p cache name with h' | ⟨info', h', hs⟩
    · rw [h'] at h
      cases h
    · rw [h'] at h
      simp only [Option.some.injEq] at h
      rw [← h]
      exact hs

theorem StructCacheSorted_get (p : Provider) (cache : UMap StructInfo) (name : Name)
    (hc : StructCacheSorted cache) : StructCacheSorted (GetStructInfo p cache name).2 := by
  unfold GetStructInfo
  cases hf : cache.find name with
  | some cached => exact hc
  | none => exact StructCacheSorted_parse p cache name hc

theorem GetStructMemberOffset_cache (p : Provider) (cache : UMap StructInfo)
    (structName memberName : Name) :
    (GetStructMemberOffset p cache structName memberName).2
      = (GetStructInfo p cache structName).2 := by
  unfold GetStructMemberOffset
  rcases hg : GetStructInfo p cache structName with ⟨r, c⟩
  cases r with
  | none => rfl
  | some info =>
    simp only
    split <;> rfl

theorem StructCacheSorted_preload (p : Provider) (names : List Name)
    (cache : UMap StructInfo) (hc : StructCacheSorted cache) :
    StructCacheSorted
      (names.foldl (fun cache name => (ParseStructInternal p cache name).2) cache) := by
  induction names generalizing cache with
  | nil => exact hc
  | cons n rest ih => exact ih _ (StructCacheSorted_parse p cache n hc)

theorem dumpStruct_cache (p : Provider) (uninit : Name → Nat) (count : Nat)
    (st : WOStream × UMap StructInfo) (entry : Nat × Name) :
    (dumpStruct p uninit count st entry).2 = (GetStructInfo p st.2 entry.2).2 := by
  unfold dumpStruct
  simp only
  rcases hg : GetStructInfo p st.2 entry.2 with ⟨r, c⟩
  cases r <;> rfl

theorem dumpStruct_fold_cache (p : Provider) (uninit : Name → Nat) (count : Nat)
    (names : List Name) (k : Nat) (st : WOStream × UMap StructInfo) :
    ((names.enumFrom k).foldl (dumpStruct p uninit count) st).2
      = names.foldl (fun c name => (GetStructInfo p c name).2) st.2 := by
  induction names generalizing k st with
  | nil => rfl
  | cons n rest ih =>
    simp only [List.enumFrom_cons, List.foldl_cons]
    rw [ih, dumpStruct_cache]

theorem DumpToJson_cache (self : PdbParser) (opens : Bool) (uninit : Name → Nat) :
    (DumpToJson self opens uninit).2.2.m_structCache
      = if opens then
          (GetAllStructNames self.m_pGlobalScope).foldl
            (fun c name => (GetStructInfo self.m_pGlobalScope c name).2) self.m_structCache
        else self.m_structCache := by
  unfold DumpToJson
  cases opens with
  | false => rfl
  | true =>
    simp only [Bool.not_true, Bool.false_eq_true, if_false, if_true, List.enum]
    rw [dumpStruct_fold_cache]

theorem StructCacheSorted_getFold (p : Provider) (names : List Name)
    (cache : UMap StructInfo) (hc : StructCacheSorted cache) :
    StructCacheSorted (names.foldl (fun c name => (GetStructInfo p c name).2) cache) := by
  induction names generalizing cache with
  | nil => exact hc
  | cons n rest ih => exact ih _ (StructCacheSorted_get p cache n hc)

theorem StructCacheSorted_run (p : Provider) (c : Caches) (call : Call)
    (hc : StructCacheSorted c.m_structCache) :
    StructCacheSorted (call.run p c).m_structCache := by
  cases call with
  | getSymbolRva n => exact hc
  | preloadSymbols => exact hc
  | getStructInfo n => exact StructCacheSorted_get p _ n hc
  | getStructMemberOffset s m =>
    simp only [Call.run]
    rw [GetStructMemberOffset_cache]
    exact StructCacheSorted_get p _ s hc
  | preloadStructures => exact StructCacheSorted_preload p _ _ hc
  | clearCaches =>
    intro e he
    simp [Call.run, ClearCaches] at he
  | findSymbolsByPattern pattern => exact hc
  | dumpToJson opens =>
    simp only [Call.run]
    rw [DumpToJson_cache]
    cases opens with
    | false => exact hc
    | true => exact StructCacheSorted_getFold p _ _ hc

theorem StructCacheSorted_fold (p : Provider) (calls : List Call) (c : Caches)
    (hc : StructCacheSorted c.m_structCache) :
    StructCacheSorted (calls.foldl (Call.run p) c).m_structCache := by
  induction calls generalizing c with
  | nil => exact hc
  | cons call rest ih => exact ih _ (StructCacheSorted_run p c call hc)

theorem StructCacheSorted_runCalls (p : Provider) (calls : List Call) :
    StructCacheSorted (runCalls p calls).m_structCache :=
  StructCacheSorted_fold p calls ⟨[], []⟩ (fun _ he => absurd he (List.not_mem_nil _))

theorem GetStructMemberOffset_result (p : Provider) (cache : UMap StructInfo)
    (structName memberName : Name) :
    (GetStructMemberOffset p cache structName memberName).1
      = match (GetStructInfo p cache structName).1 with
        | none => none
        | some info =>
          (info.members.find? (fun m => decide (m.name = memberName))).map (fun m => m.offset) := by
  unfold GetStructMemberOffset
  rcases hg : GetStructInfo p cache structName with ⟨r, c⟩
  cases r with
  | none => rfl
  | some info =>
    simp only [WStringToString_eq]
    cases info.members.find? (fun m => decide (m.name = memberName)) <;> rfl

theorem enumLoop_collect {ρ α : Type} (cap : Nat) (dec : ρ → Option α)
    (cb : List α → ρ → List α × Bool)
    (hcb : ∀ acc r, cb acc r
      = (acc ++ (dec r).toList, decide ((acc ++ (dec r).toList).length < cap)))
    (l : List ρ) (acc : List α) (h : acc.length < cap) :
    enumLoop cb acc l = acc ++ (l.filterMap dec).take (cap - acc.length) := by
  induction l generalizing acc with
  | nil => simp [enumLoop]
  | cons r rest ih =>
    obtain ⟨k, hk⟩ : ∃ k, cap - acc.length = k + 1 := ⟨cap - acc.length - 1, by omega⟩
    unfold enumLoop
    rw [hcb]
    cases hd : dec r with
    | none =>
      simp only [Option.toList, List.append_nil, h, decide_True, List.filterMap_cons, hd]
      exact ih acc h
    | some x =>
      simp only [Option.toList, List.filterMap_cons, hd]
      by_cases hlt : (acc ++ [x]).length < cap
      · simp only [hlt, decide_True]
        rw [ih _ hlt, hk, List.take_succ_cons]
        have hk' : cap - (acc ++ [x]).length = k := by
          simp only [List.length_append, List.length_singleton]
          omega
        rw [hk', List.append_assoc]
        rfl
      · simp only [hlt, decide_False]
        have hk0 : k = 0 := by
          simp only [List.length_append, List.length_singleton] at hlt
          omega
        rw [hk, hk0, List.take_succ_cons, List.take_zero]

theorem patternCallback_eq (m : Name → Bool) (acc : List SymbolInfo) (r : RawSymbol) :
    patternCallback m acc r
      = (acc ++ (r.wellFormed.filter (fun s => m s.name)).toList,
          decide ((acc ++ (r.wellFormed.filter (fun s => m s.name)).toList).length < 200)) := by
  obtain ⟨n, a, l, t⟩ := r
  unfold patternCallback RawSymbol.wellFormed
  cases n with
  | failed => simp [Option.filter]
  | raised => simp [Option.filter]
  | ok nm =>
    by_cases hne : nm = ""
    · cases a <;> cases l <;> cases t <;> simp [length_pos_iff_ne_empty, hne, Option.filter]
    · by_cases hm : m nm = true
      · cases a <;> cases l <;> cases t <;>
          simp [length_pos_iff_ne_empty, hne, hm, Option.filter, WStringToString_eq]
      · cases a <;> cases l <;> cases t <;>
          simp [length_pos_iff_ne_empty, hne, hm, Option.filter, WStringToString_eq]

theorem filterMap_matching (m : Name → Bool) (l : List RawSymbol) :
    l.filterMap (fun r => r.wellFormed.filter (fun s => m s.name))
      = (l.filterMap RawSymbol.wellFormed).filter (fun s => m s.name) := by
  rw [List.filter_filterMap]

theorem FindSymbolsByPattern_eq (rx : RegexEngine) (p : Provider) (pattern : Name)
    (m : Name → Bool) (h : rx.compile pattern = some m) :
    FindSymbolsByPattern rx p pattern = (p.matchingSymbols m).take 200 := by
  unfold FindSymbolsByPattern EnumerateSymbols Provider.matchingSymbols
    Provider.wellFormedSymbols Provider.symbolStream
  rw [h]
  cases p.publicSymbols with
  | none => simp
  | some l =>
    simp only [Option.getD_some]
    rw [enumLoop_collect 200 (fun r => r.wellFormed.filter (fun s => m s.name)) _
      (patternCallback_eq m) l [] (by simp), filterMap_matching]
    simp

theorem FindSymbolsByPattern_error (rx : RegexEngine) (p : Provider) (pattern : Name)
    (h : rx.compile pattern = none) : FindSymbolsByPattern rx p pattern = [] := by
  unfold FindSymbolsByPattern
  rw [h]

theorem filterMap_take_of_isSome {ρ α : Type} (g : ρ → Option α) (n : Nat) (l : List ρ)
    (h : ∀ r ∈ l, (g r).isSome = true) :
    (l.take n).filterMap g = (l.filterMap g).take n := by
  induction l generalizing n with
  | nil => simp
  | cons r rest ih =>
    cases n with
    | zero => simp
    | succ k =>
      obtain ⟨x, hx⟩ := Option.isSome_iff_exists.mp (h r (List.mem_cons_self _ _))
      simp only [List.take_succ_cons, List.filterMap_cons, hx]
      rw [ih k (fun y hy => h y (List.mem_cons_of_mem _ hy))]

theorem filterMap_filter_isSome {ρ α : Type} (g : ρ → Option α) (l : List ρ) :
    (l.filter (fun r => (g r).isSome)).filterMap g = l.filterMap g := by
  induction l with
  | nil => rfl
  | cons r rest ih =>
    cases hg : g r with
    | none => simp [List.filter_cons, hg, ih]
    | some x => simp [List.filter_cons, hg, ih]

theorem matchedBy_eq (m : Name → Bool) (r : RawSymbol) :
    r.matchedBy m = (r.wellFormed.filter (fun s => m s.name)).isSome := by
  unfold RawSymbol.matchedBy
  cases r.wellFormed with
  | none => rfl
  | some s => cases hm : m s.name <;> simp [Option.filter, hm]

theorem matchingSymbols_firstMatches (p : Provider) (m : Name → Bool) :
    (p.firstMatches m).matchingSymbols m = (p.matchingSymbols m).take 200 := by
  unfold Provider.firstMatches Provider.matchingSymbols Provider.wellFormedSymbols
  simp only [Provider.symbolStream, Option.getD_some]
  rw [← filterMap_matching, ← filterMap_matching]
  have hfun : (RawSymbol.matchedBy m)
      = fun r => (r.wellFormed.filter (fun s => m s.name)).isSome := by
    funext r
    exact matchedBy_eq m r
  rw [hfun, filterMap_take_of_isSome, filterMap_filter_isSome]
  intro r hr
  exact (List.mem_filter.mp hr).2

theorem matchingSymbols_repeated (n : Nat) (m : Name → Bool) (h : m "sym" = true) :
    (repeatedProvider n).matchingSymbols m = List.replicate n ⟨"sym", 16, 4, 0⟩ := by
  unfold Provider.matchingSymbols
  rw [wellFormedSymbols_repeated]
  apply List.filter_eq_self.mpr
  intro a ha
  rw [(List.mem_replicate.mp ha).2]
  exact h

theorem ParseStructInternal_result (p : Provider) (cache : UMap StructInfo) (name : Name) :
    (ParseStructInternal p cache name).1 = (ParseStructInternal p [] name).1 := by
  unfold ParseStructInternal
  rcases (EnumerateSymbols p.udts (parseStructCallback name) (⟨"", none, []⟩, false)).1
    with ⟨si, found⟩
  cases found <;> rfl

theorem ParseStructInternal_cache (p : Provider) (cache : UMap StructInfo) (name : Name) :
    (ParseStructInternal p cache name).2
      = match (ParseStructInternal p [] name).1 with
        | some info => cache.assign name info
        | none => cache := by
  unfold ParseStructInternal
  rcases (EnumerateSymbols p.udts (parseStructCallback name) (⟨"", none, []⟩, false)).1
    with ⟨si, found⟩
  cases found <;> rfl

theorem StructCacheCoherent_parse (p : Provider) (cache : UMap StructInfo) (name : Name)
    (hc : StructCacheCoherent p cache) :
    StructCacheCoherent p (ParseStructInternal p cache name).2 := by
  rw [ParseStructInternal_cache]
  cases hr : (ParseStructInternal p [] name).1 with
  | none => exact hc
  | some info =>
    intro e he
    rcases UMap.mem_assign cache name info e he with h | h
    · exact hc e h
    · rw [h]
      exact hr

theorem GetStructInfo_coherent (p : Provider) (cache : UMap StructInfo) (name : Name)
    (hc : StructCacheCoherent p cache) :
    (GetStructInfo p cache name).1 = (GetStructInfo p [] name).1 := by
  have hnil : (GetStructInfo p [] name).1 = (ParseStructInternal p [] name).1 := rfl
  rw [hnil]
  unfold GetStructInfo
  cases hf : cache.find name with
  | some info =>
    exact (hc _ (UMap.mem_of_find cache name info hf)).symm
  | none => exact ParseStructInternal_result p cache name

theorem StructCacheCoherent_get (p : Provider) (cache : UMap StructInfo) (name : Name)
    (hc : StructCacheCoherent p cache) : StructCacheCoherent p (GetStructInfo p cache name).2 := by
  unfold GetStructInfo
  cases hf : cache.find name with
  | some cached => exact hc
  | none => exact StructCacheCoherent_parse p cache name hc

theorem StructCacheCoherent_preload (p : Provider) (names : List Name)
    (cache : UMap StructInfo) (hc : StructCacheCoherent p cache) :
    StructCacheCoherent p
      (names.foldl (fun cache name => (ParseStructInternal p cache name).2) cache) := by
  induction names generalizing cache with
  | nil => exact hc
  | cons n rest ih => exact ih _ (StructCacheCoherent_parse p cache n hc)

theorem StructCacheCoherent_getFold (p : Provider) (names : List Name)
    (cache : UMap StructInfo) (hc : StructCacheCoherent p cache) :
    StructCacheCoherent p (names.foldl (fun c name => (GetStructInfo p c name).2) cache) := by
  induction names generalizing cache with
  | nil => exact hc
  | cons n rest ih => exact ih _ (StructCacheCoherent_get p cache n hc)

theorem StructCacheCoherent_run (p : Provider) (c : Caches) (call : Call)
    (hc : StructCacheCoherent p c.m_structCache) :
    StructCacheCoherent p (call.run p c).m_structCache := by
  cases call with
  | getSymbolRva n => exact hc
  | preloadSymbols => exact hc
  | getStructInfo n => exact StructCacheCoherent_get p _ n hc
  | getStructMemberOffset s m =>
    simp only [Call.run]
    rw [GetStructMemberOffset_cache]
    exact StructCacheCoherent_get p _ s hc
  | preloadStructures => exact StructCacheCoherent_preload p _ _ hc
  | clearCaches =>
    intro e he
    simp [Call.run, ClearCaches] at he
  | findSymbolsByPattern pattern => exact hc
  | dumpToJson opens =>
    simp only [Call.run]
    rw [DumpToJson_cache]
    cases opens with
    | false => exact hc
    | true => exact StructCacheCoherent_getFold p _ _ hc

theorem StructCacheCoherent_fold (p : Provider) (calls : List Call) (c : Caches)
    (hc : StructCacheCoherent p c.m_structCache) :
    StructCacheCoherent p (calls.foldl (Call.run p) c).m_structCache := by
  induction calls generalizing c with
  | nil => exact hc
  | cons call rest ih => exact ih _ (StructCacheCoherent_run p c call hc)

theorem GetStructInfo_runCalls (p : Provider) (calls : List Call) (name : Name) :
    (GetStructInfo p (runCalls p calls).m_structCache name).1 = (GetStructInfo p [] name).1 :=
  GetStructInfo_coherent p _ name
    (StructCacheCoherent_fold p calls ⟨[], []⟩ (fun _ he => absurd he (List.not_mem_nil _)))

theorem FindSymbolsByPattern_stream (rx : RegexEngine) (p q : Provider) (pattern : Name)
    (h : q.symbolStream = p.symbolStream) :
    FindSymbolsByPattern rx q pattern = FindSymbolsByPattern rx p pattern := by
  cases hc : rx.compile pattern with
  | none => rw [FindSymbolsByPattern_error rx q pattern hc, FindSymbolsByPattern_error rx p pattern hc]
  | some m =>
    rw [FindSymbolsByPattern_eq rx q pattern m hc, FindSymbolsByPattern_eq rx p pattern m hc]
    unfold Provider.matchingSymbols Provider.wellFormedSymbols
    rw [h]

theorem mem_GetAll_overfull (s : SymbolInfo) :
    s ∈ GetAllPublicSymbols overfullProvider ↔
      s ∈ (List.range 5000).map (fun i => (⟨fillerName i, i, 0, 0⟩ : SymbolInfo)) := by
  rw [(GetAllPublicSymbols_perm overfullProvider).mem_iff, wellFormedSymbols_overfull,
    List.take_append_of_le_length (by simp), List.take_of_length_le (by simp)]

theorem lastRva_isSome_of_mem (l : List SymbolInfo) (n : Name)
    (h : n ∈ l.map (fun s => s.name)) : ∃ v, lastRva l n = some v := by
  cases hr : lastRva l n with
  | none => exact absurd h ((lastRva_eq_none_iff l n).mp hr)
  | some v => exact ⟨v, rfl⟩

theorem names_GetAll_iff (p : Provider) (n : Name) :
    n ∈ (GetAllPublicSymbols p).map (fun s => s.name) ↔
      n ∈ (p.wellFormedSymbols.take 5000).map (fun s => s.name) :=
  ((GetAllPublicSymbols_perm p).map _).mem_iff

theorem swap_filter_name (l : List SymbolDiff) (n : Name) :
    (l.map SymbolDiff.swap).filter (fun d => decide (d.name = n))
      = (l.filter (fun d => decide (d.name = n))).map SymbolDiff.swap := by
  rw [List.filter_map]
  rfl

theorem compareSymbols_swap_named (oldSymbols newSymbols : List SymbolInfo) (n : Name) :
    (compareSymbols newSymbols oldSymbols).filter (fun d => decide (d.name = n))
      = ((compareSymbols oldSymbols newSymbols).map SymbolDiff.swap).filter
          (fun d => decide (d.name = n)) := by
  rw [swap_filter_name, compareSymbols_named, compareSymbols_named]
  cases lastRva oldSymbols n with
  | none => cases lastRva newSymbols n <;> rfl
  | some ov =>
    cases lastRva newSymbols n with
    | none => rfl
    | some nv =>
      by_cases h : ov = nv
      · subst h
        simp
      · have h' : ¬ nv = ov := fun e => h e.symm
        simp [h, h', SymbolDiff.swap]

theorem perm_of_filter_name_eq (l₁ l₂ : List SymbolDiff)
    (h : ∀ n, l₁.filter (fun d => decide (d.name = n)) = l₂.filter (fun d => decide (d.name = n))) :
    l₁.Perm l₂ := by
  rw [List.perm_iff_count]
  intro a
  have h1 : List.count a (l₁.filter (fun d => decide (d.name = a.name))) = List.count a l₁ :=
    List.count_filter (by simp)
  have h2 : List.count a (l₂.filter (fun d => decide (d.name = a.name))) = List.count a l₂ :=
    List.count_filter (by simp)
  rw [← h1, ← h2, h a.name]

theorem compareSymbols_swap (oldSymbols newSymbols : List SymbolInfo) :
    (compareSymbols newSymbols oldSymbols).Perm
      ((compareSymbols oldSymbols newSymbols).map SymbolDiff.swap) :=
  perm_of_filter_name_eq _ _ (compareSymbols_swap_named oldSymbols newSymbols)

theorem compareSymbols_self (symbols : List SymbolInfo) : compareSymbols symbols symbols = [] := by
  apply List.eq_nil_iff_forall_not_mem.mpr
  intro d hd
  have hmem : d ∈ (compareSymbols symbols symbols).filter (fun e => decide (e.name = d.name)) :=
    List.mem_filter.mpr ⟨hd, by simp⟩
  rw [compareSymbols_named] at hmem
  cases h : lastRva symbols d.name with
  | none => simp [h] at hmem
  | some v => simp [h] at hmem

theorem wellFormedSymbols_length_le (p : Provider) :
    p.wellFormedSymbols.length ≤ p.symbolStream.length :=
  List.length_filterMap_le _ _

theorem DumpToJson_flag (self : PdbParser) (opens : Bool) (uninit : Name → Nat) :
    (DumpToJson self opens uninit).1 = opens := by
  unfold DumpToJson
  cases opens <;> rfl

theorem DumpToJson_closed (self : PdbParser) (uninit : Name → Nat) :
    DumpToJson self false uninit = (false, "", self) := by
  unfold DumpToJson
  rfl

theorem processOne_eq (host : Host) (outputDir : Name) (written : List (Name × String))
    (pdbFile : Name) :
    processOne host outputDir written pdbFile
      = written ++ (exportOf host outputDir pdbFile).toList := by
  unfold processOne exportOf
  cases hc : PdbParser.construct host pdbFile with
  | none => simp
  | some parser =>
    simp only [PdbParser.IsInitialized, Bool.not_true, Bool.false_eq_true, if_false]
    cases ho : host.opens (outputDir ++ "\\" ++ host.stem pdbFile ++ "_analysis.json") with
    | false =>
      rw [DumpToJson_closed]
      simp
    | true =>
      have hf := DumpToJson_flag parser true host.uninit
      rcases hd : DumpToJson parser true host.uninit with ⟨b, text, q⟩
      rw [hd] at hf
      simp only at hf
      subst hf
      simp

theorem processOne_fold (host : Host) (outputDir : Name) (pdbFiles : List Name)
    (written : List (Name × String)) :
    pdbFiles.foldl (processOne host outputDir) written
      = written ++ pdbFiles.filterMap (exportOf host outputDir) := by
  induction pdbFiles generalizing written with
  | nil => simp
  | cons f rest ih =>
    rw [List.foldl_cons, ih, processOne_eq, List.filterMap_cons]
    cases exportOf host outputDir f <;> simp

theorem ProcessMultiplePdbs_eq (host : Host) (pdbFiles : List Name) (outputDir : Name) :
    ProcessMultiplePdbs host pdbFiles outputDir
      = pdbFiles.filterMap (exportOf host outputDir) := by
  unfold ProcessMultiplePdbs
  rw [processOne_fold]
  rfl

theorem fileAfter_fold (l : List (Name × String)) (path : Name) (content : Option String) :
    l.foldl (fun content w => if w.1 = path then some w.2 else content) content
      = (fileAfter l path).or content := by
  induction l generalizing content with
  | nil => simp [fileAfter]
  | cons w rest ih =>
    unfold fileAfter
    rw [List.foldl_cons, List.foldl_cons, ih, ih (if w.1 = path then some w.2 else none)]
    by_cases hw : w.1 = path
    · cases fileAfter rest path <;> simp [hw]
    · simp [hw]

theorem fileAfter_append (l₁ l₂ : List (Name × String)) (path : Name) :
    fileAfter (l₁ ++ l₂) path = (fileAfter l₂ path).or (fileAfter l₁ path) := by
  unfold fileAfter
  rw [List.foldl_append, fileAfter_fold]
  rfl

theorem fileAfter_eq_none (l : List (Name × String)) (path : Name)
    (h : ∀ w ∈ l, w.1 ≠ path) : fileAfter l path = none := by
  induction l with
  | nil => rfl
  | cons w rest ih =>
    have h1 := fileAfter_append [w] rest path
    simp only [List.singleton_append] at h1
    rw [h1, ih (fun x hx => h x (List.mem_cons_of_mem _ hx))]
    simp [fileAfter, h w (List.mem_cons_self _ _)]

/-! ## The claims -/

/-- C1. For snapshots `old` and `new` (the `GetAllPublicSymbols` results of the two
parsers) with distinct names within each, `ComparePdbs` returns exactly one entry for each
name that occurs in exactly one of them: a name only in `old` has the single entry flagged
removed only, with `oldRva` its rva in `old` and `newRva` 0; a name only in `new` has the
single entry flagged added only, with `newRva` its rva in `new` and `oldRva` 0; every entry
flagged added or removed is one of these. For `old = {A:0x100, B:0x200}` and
`new = {B:0x200, C:0x300}` the result is Removed A, Added C and nothing for B. -/
theorem C1_added_and_removed (oldPdb newPdb : Provider)
    (hold : ((GetAllPublicSymbols oldPdb).map (fun s => s.name)).Nodup)
    (hnew : ((GetAllPublicSymbols newPdb).map (fun s => s.name)).Nodup) :
    (∀ s ∈ GetAllPublicSymbols oldPdb,
      s.name ∉ (GetAllPublicSymbols newPdb).map (fun s => s.name) →
      (ComparePdbs oldPdb newPdb).filter (fun d => decide (d.name = s.name))
        = [⟨s.name, s.rva, 0, false, true, false⟩]) ∧
    (∀ s ∈ GetAllPublicSymbols newPdb,
      s.name ∉ (GetAllPublicSymbols oldPdb).map (fun s => s.name) →
      (ComparePdbs oldPdb newPdb).filter (fun d => decide (d.name = s.name))
        = [⟨s.name, 0, s.rva, true, false, false⟩]) ∧
    (∀ d ∈ ComparePdbs oldPdb newPdb, d.added = true ∨ d.removed = true →
      (d.name ∈ (GetAllPublicSymbols oldPdb).map (fun s => s.name) ∧
        d.name ∉ (GetAllPublicSymbols newPdb).map (fun s => s.name)) ∨
      (d.name ∈ (GetAllPublicSymbols newPdb).map (fun s => s.name) ∧
        d.name ∉ (GetAllPublicSymbols oldPdb).map (fun s => s.name))) ∧
    ComparePdbs diffOldAB diffNewBC
      = [⟨"A", 0x100, 0, false, true, false⟩, ⟨"C", 0, 0x300, true, false, false⟩] := by
  refine ⟨?_, ?_, ?_, by decide⟩
  · intro s hs hn
    unfold ComparePdbs
    rw [compareSymbols_named, lastRva_of_nodup _ hold s hs,
      (lastRva_eq_none_iff _ s.name).mpr hn]
  · intro s hs hn
    unfold ComparePdbs
    rw [compareSymbols_named, lastRva_of_nodup _ hnew s hs,
      (lastRva_eq_none_iff _ s.name).mpr hn]
  · intro d hd hflag
    have hmem : d ∈ (ComparePdbs oldPdb newPdb).filter (fun e => decide (e.name = d.name)) :=
      List.mem_filter.mpr ⟨hd, by simp⟩
    unfold ComparePdbs at hmem
    rw [compareSymbols_named] at hmem
    cases ho : lastRva (GetAllPublicSymbols oldPdb) d.name with
    | none =>
      cases hn : lastRva (GetAllPublicSymbols newPdb) d.name with
      | none => simp [ho, hn] at hmem
      | some nv =>
        right
        refine ⟨?_, (lastRva_eq_none_iff _ _).mp ho⟩
        by_contra hc
        rw [(lastRva_eq_none_iff _ _).mpr hc] at hn
        cases hn
    | some ov =>
      cases hn : lastRva (GetAllPublicSymbols newPdb) d.name with
      | none =>
        left
        refine ⟨?_, (lastRva_eq_none_iff _ _).mp hn⟩
        by_contra hc
        rw [(lastRva_eq_none_iff _ _).mpr hc] at ho
        cases ho
      | some nv =>
        exfalso
        simp only [ho, hn] at hmem
        split at hmem
        · rw [List.mem_singleton] at hmem
          rw [hmem] at hflag
          simp at hflag
        · simp at hmem

/-- Witness of C1: the snapshots `{A:0x100, B:0x200}` and `{B:0x200, C:0x300}` have distinct
names, and the only entry named `A` is the removed one. -/
theorem C1_witness :
    (ComparePdbs diffOldAB diffNewBC).filter (fun d => decide (d.name = "A"))
      = [⟨"A", 0x100, 0, false, true, false⟩] :=
  (C1_added_and_removed diffOldAB diffNewBC (by decide) (by decide)).1
    ⟨"A", 0x100, 0, 0⟩ (by decide) (by decide)

/-- C2. For snapshots `old` and `new` with distinct names within each and a name present
in both: if its rva differs, `ComparePdbs` returns exactly one entry for that name, flagged
changed only, with `oldRva` the rva in `old` and `newRva` the rva in `new`; if its rva is
equal in both, `ComparePdbs` returns no entry with that name. For `old = {A:0x100}` and
`new = {A:0x150}` the result is exactly one entry Changed A with old 0x100 and new 0x150. -/
theorem C2_changed_or_silent (oldPdb newPdb : Provider)
    (hold : ((GetAllPublicSymbols oldPdb).map (fun s => s.name)).Nodup)
    (hnew : ((GetAllPublicSymbols newPdb).map (fun s => s.name)).Nodup) :
    (∀ so ∈ GetAllPublicSymbols oldPdb, ∀ sn ∈ GetAllPublicSymbols newPdb,
      so.name = sn.name →
      (so.rva ≠ sn.rva →
        (ComparePdbs oldPdb newPdb).filter (fun d => decide (d.name = so.name))
          = [⟨so.name, so.rva, sn.rva, false, false, true⟩]) ∧
      (so.rva = sn.rva →
        (ComparePdbs oldPdb newPdb).filter (fun d => decide (d.name = so.name)) = [])) ∧
    ComparePdbs diffOldA diffNewA = [⟨"A", 0x100, 0x150, false, false, true⟩] := by
  refine ⟨?_, by decide⟩
  intro so hso sn hsn hname
  have h : (ComparePdbs oldPdb newPdb).filter (fun d => decide (d.name = so.name))
      = if so.rva ≠ sn.rva then [⟨so.name, so.rva, sn.rva, false, false, true⟩] else [] := by
    unfold ComparePdbs
    rw [compareSymbols_named, lastRva_of_nodup _ hold so hso, hname,
      lastRva_of_nodup _ hnew sn hsn]
  rw [h]
  constructor
  · intro hne
    simp [hne]
  · intro heq
    simp [heq]

/-- Witness of C2: the snapshots `{A:0x100}` and `{A:0x150}`. -/
theorem C2_witness :
    (ComparePdbs diffOldA diffNewA).filter (fun d => decide (d.name = "A"))
      = [⟨"A", 0x100, 0x150, false, false, true⟩] :=
  ((C2_changed_or_silent diffOldA diffNewA (by decide) (by decide)).1
    ⟨"A", 0x100, 0, 0⟩ (by decide) ⟨"A", 0x150, 0, 0⟩ (by decide) rfl).1 (by decide)

/-- C3, as amended. With an empty symbol cache `GetSymbolRva` returns the rva of the first
record in enumeration order whose name is readable, not empty and equal to the requested
name and whose rva is readable; it returns the empty optional (the function is total: it
does not raise) when the stream has no such record. The pair name -> rva is added to the
cache exactly when such a record was found; the cache is unchanged otherwise. -/
theorem C3_lookup_first_readable_match (p : Provider) (name : Name) :
    (GetSymbolRva p [] name
      = match firstAnswer p.symbolStream name with
        | some v => (some v, [(name, v)])
        | none => (none, [])) ∧
    (∀ v, firstAnswer p.symbolStream name = some v ↔
      ∃ before r after, p.symbolStream = before ++ r :: after ∧
        r.undecoratedName = .ok name ∧ name ≠ "" ∧ r.relativeVirtualAddress = .ok v ∧
        ∀ x ∈ before, ¬ (x.undecoratedName = .ok name ∧ name ≠ "" ∧
          ∃ w, x.relativeVirtualAddress = .ok w)) ∧
    (firstAnswer p.symbolStream name = none ↔
      ∀ x ∈ p.symbolStream, ¬ (x.undecoratedName = .ok name ∧ name ≠ "" ∧
          ∃ w, x.relativeVirtualAddress = .ok w)) := by
  refine ⟨?_, ?_, ?_⟩
  · rw [GetSymbolRva_miss p [] name rfl]
    cases firstAnswer p.symbolStream name <;> rfl
  · intro v
    rw [firstAnswer_eq_some_iff]
    constructor
    · rintro ⟨before, r, after, heq, hr, hb⟩
      refine ⟨before, r, after, heq, ?_⟩
      obtain ⟨h1, h2, h3⟩ := (answer_eq_some_iff name r v).mp hr
      refine ⟨h1, h2, h3, ?_⟩
      intro x hx
      exact (answer_eq_none_iff name x).mp (hb x hx)
    · rintro ⟨before, r, after, heq, h1, h2, h3, hb⟩
      refine ⟨before, r, after, heq, (answer_eq_some_iff name r v).mpr ⟨h1, h2, h3⟩, ?_⟩
      intro x hx
      exact (answer_eq_none_iff name x).mpr (hb x hx)
  · unfold firstAnswer
    rw [List.findSome?_eq_none_iff]
    constructor
    · intro h x hx
      exact (answer_eq_none_iff name x).mp (h x hx)
    · intro h x hx
      exact (answer_eq_none_iff name x).mpr (h x hx)

/-- Counterexample to C3 as stated. The first record named `A` has an unreadable rva, and
`GetSymbolRva` returns the rva 5 of the second record named `A`, which is not the rva of
the first record with that name. And a lookup of the empty name returns the empty optional
although the first record with exactly that name has the readable rva 7. -/
theorem C3_counterexample :
    (shadowedProvider.symbolStream.find? (fun r => decide (r.undecoratedName = .ok "A"))
        = some ⟨.ok "A", .failed, .ok 0, .ok 0⟩ ∧
      (GetSymbolRva shadowedProvider [] "A").1 = some 5 ∧
      (GetSymbolRva shadowedProvider [] "A").1
        ≠ firstNamedRva shadowedProvider.symbolStream "A") ∧
    (firstNamedRva emptyNameProvider.symbolStream "" = some 7 ∧
      (GetSymbolRva emptyNameProvider [] "").1 = none) := by
  decide

/-- C5. For every provider symbol stream the result of `GetAllPublicSymbols` is
non-decreasing in rva: for all indices `i < j`, `result[i].rva ≤ result[j].rva`. -/
theorem C5_result_nondecreasing_in_rva (p : Provider) (i j : Nat) (hij : i < j)
    (hj : j < (GetAllPublicSymbols p).length) :
    ((GetAllPublicSymbols p).get ⟨i, Nat.lt_trans hij hj⟩).rva
      ≤ ((GetAllPublicSymbols p).get ⟨j, hj⟩).rva := by
  have h := List.pairwise_iff_getElem.mp (GetAllPublicSymbols_sorted p) i j
    (Nat.lt_trans hij hj) hj hij
  simpa using h

/-- Witness of C5 on a stream with malformed records: the records at indices 0 and 2 of
the result are in order. -/
theorem C5_witness :
    ((GetAllPublicSymbols mixedProvider).map (fun s => s.rva) = [0x10, 0x20, 0x30]) ∧
    ((GetAllPublicSymbols mixedProvider).get ⟨0, by decide⟩).rva
      ≤ ((GetAllPublicSymbols mixedProvider).get ⟨2, by decide⟩).rva :=
  ⟨by decide, C5_result_nondecreasing_in_rva mixedProvider 0 2 (by decide) (by decide)⟩

/-- C6. For every provider symbol stream `GetAllPublicSymbols` returns at most 5000
records, and exactly 5000 whenever the stream yields more than 5000 well-formed records. -/
theorem C6_result_capped_at_5000 (p : Provider) :
    (GetAllPublicSymbols p).length ≤ 5000 ∧
    (5000 < p.wellFormedSymbols.length → (GetAllPublicSymbols p).length = 5000) := by
  rw [GetAllPublicSymbols_length]
  constructor
  · exact Nat.min_le_left _ _
  · intro h
    exact Nat.min_eq_left (Nat.le_of_lt h)

/-- Witness of C6: a stream of 5001 well-formed records gives exactly 5000 results. -/
theorem C6_witness :
    5000 < (repeatedProvider 5001).wellFormedSymbols.length ∧
    (GetAllPublicSymbols (repeatedProvider 5001)).length = 5000 :=
  have h : 5000 < (repeatedProvider 5001).wellFormedSymbols.length := by
    rw [wellFormedSymbols_repeated, List.length_replicate]
    exact Nat.lt_succ_self 5000
  ⟨h, (C6_result_capped_at_5000 (repeatedProvider 5001)).2 h⟩

/-- C7. For every provider symbol stream with at most 5000 well-formed records, with
malformed records at any positions, `GetAllPublicSymbols` (a total function: it does not
fail) returns a permutation of exactly the well-formed records of the stream. -/
theorem C7_malformed_records_skipped (p : Provider)
    (h : p.wellFormedSymbols.length ≤ 5000) :
    (GetAllPublicSymbols p).Perm p.wellFormedSymbols := by
  have hp := GetAllPublicSymbols_perm p
  rwa [List.take_of_length_le h] at hp

/-- Witness of C7: six malformed records of every kind between three well-formed ones. -/
theorem C7_witness :
    mixedProvider.wellFormedSymbols
      = [⟨"c", 0x30, 1, 0⟩, ⟨"a", 0x10, 1, 0⟩, ⟨"b", 0x20, 1, 0⟩] ∧
    GetAllPublicSymbols mixedProvider
      = [⟨"a", 0x10, 1, 0⟩, ⟨"b", 0x20, 1, 0⟩, ⟨"c", 0x30, 1, 0⟩] ∧
    (GetAllPublicSymbols mixedProvider).Perm mixedProvider.wellFormedSymbols :=
  ⟨by decide, by decide, C7_malformed_records_skipped mixedProvider (by decide)⟩

/-- C8. For every structure found by `GetStructInfo`, after any sequence of calls on the
parser (so on the cache-miss path and on the cache-hit path alike), the members of the
returned record are in non-decreasing order of offset; a structure whose provider members
come at offsets `[8,0,4]` is returned with members at offsets `[0,4,8]`, from the provider
and from the cache. -/
theorem C8_members_sorted_by_offset :
    (∀ (p : Provider) (calls : List Call) (structName : Name) (info : StructInfo),
      (GetStructInfo p (runCalls p calls).m_structCache structName).1 = some info →
      SortedByOffset info.members) ∧
    (GetStructInfo layoutProvider [] "S").1.map (fun s => s.members.map (fun m => m.offset))
      = some [0, 4, 8] ∧
    ((runCalls layoutProvider [.getStructInfo "S"]).m_structCache.find "S").isSome = true ∧
    (GetStructInfo layoutProvider (runCalls layoutProvider [.getStructInfo "S"]).m_structCache
      "S").1.map (fun s => s.members.map (fun m => m.offset)) = some [0, 4, 8] := by
  refine ⟨?_, by decide, by decide, by decide⟩
  intro p calls structName info h
  exact GetStructInfo_sorted p _ structName (StructCacheSorted_runCalls p calls) info h

/-- Witness of C8: the record of `S` returned from the cache after an earlier
`GetStructInfo("S")` is in offset order. -/
theorem C8_witness :
    SortedByOffset [⟨"a", 0, 4, 0⟩, ⟨"b", 4, 4, 0⟩, ⟨"c", 8, 4, 0⟩] :=
  C8_members_sorted_by_offset.1 layoutProvider [.getStructInfo "S"] "S"
    ⟨"S", some 12, [⟨"a", 0, 4, 0⟩, ⟨"b", 4, 4, 0⟩, ⟨"c", 8, 4, 0⟩]⟩ (by decide)

/-- C9, as amended. With an empty structure cache `GetStructInfo` returns the empty
optional when no type record has a readable, non-empty name equal to the requested name
with `get_length` and `findChildren` not throwing; otherwise it returns a record built from
the first such type record in enumeration order: it carries the requested name, the size
of that type record when readable, and a member list of at most 100 entries that is a
permutation of the first 100 well-formed members of that type record (all of them when
there are fewer); the record is stored in the structure cache, and a repeated
`GetStructInfo(name)` returns an equal record. -/
theorem C9_struct_from_first_usable_record (p : Provider) (name : Name) :
    ((∀ u ∈ p.typeStream, u.hit name = false) → GetStructInfo p [] name = (none, [])) ∧
    (∀ before u after, p.typeStream = before ++ u :: after →
      (∀ x ∈ before, x.hit name = false) → u.hit name = true →
      ∃ info, GetStructInfo p [] name = (some info, [(name, info)]) ∧
        info.name = name ∧
        (∀ s, u.length = .ok s → info.size = some s) ∧
        info.members.length ≤ 100 ∧
        info.members.Perm (u.wellFormedMembers.take 100) ∧
        (u.wellFormedMembers.length ≤ 100 → info.members.Perm u.wellFormedMembers) ∧
        GetStructInfo p [(name, info)] name = (some info, [(name, info)])) := by
  constructor
  · intro h
    exact ParseStructInternal_none p [] name h
  · intro before u after hs hb hu
    obtain ⟨sz, hparse, hsz⟩ := ParseStructInternal_some p [] name before u after hs hb hu
    have hperm := stdSort_perm (fun a b : StructMember => decide (a.offset < b.offset))
      (u.wellFormedMembers.take 100)
    refine ⟨_, hparse, rfl, hsz, ?_, hperm, ?_, ?_⟩
    · rw [hperm.length_eq, List.length_take]
      exact Nat.min_le_left _ _
    · intro hle
      have hall := hperm
      rw [List.take_of_length_le hle] at hall
      simp only [List.take_of_length_le hle]
      exact hall
    · simp [GetStructInfo, UMap.find]

/-- Witness of C9 as amended: the structure `S` of a provider whose members come at
offsets 8, 0, 4. -/
theorem C9_witness :
    ∃ info, GetStructInfo layoutProvider [] "S" = (some info, [("S", info)]) ∧
      info.name = "S" ∧
      (∀ s, (Hr.ok 12 : Hr Nat) = .ok s → info.size = some s) ∧
      info.members.length ≤ 100 ∧
      info.members.Perm ([⟨"c", 8, 4, 0⟩, ⟨"a", 0, 4, 0⟩, ⟨"b", 4, 4, 0⟩] : List StructMember) ∧
      GetStructInfo layoutProvider [("S", info)] "S" = (some info, [("S", info)]) := by
  obtain ⟨info, h1, h2, h3, h4, h5, _, h7⟩ :=
    (C9_struct_from_first_usable_record layoutProvider "S").2 []
      ⟨.ok "S", .ok 12, .ok [.mk4 "c" 8 4 0, .mk4 "a" 0 4 0, .mk4 "b" 4 4 0]⟩ [] rfl
      (fun x hx => absurd hx (List.not_mem_nil _)) (by decide)
  exact ⟨info, h1, h2, h3, h4, h5, h7⟩

/-- Counterexample to C9 as stated. The first type record named `S` throws in
`get_length`; it is passed over and the result is built from the second record named `S`,
whose member `y` is not a member of the first. And a lookup of the empty name returns the
empty optional although a type record has exactly that name. -/
theorem C9_counterexample :
    (raisingTypes.typeStream.find? (fun u => decide (u.name = .ok "S"))
        = some ⟨.ok "S", .raised, .ok [.mk4 "x" 0 4 0]⟩ ∧
      RawUdt.wellFormedMembers ⟨.ok "S", .raised, .ok [.mk4 "x" 0 4 0]⟩ = [⟨"x", 0, 4, 0⟩] ∧
      (GetStructInfo raisingTypes [] "S").1 = some ⟨"S", some 8, [⟨"y", 4, 4, 0⟩]⟩ ∧
      (⟨"y", 4, 4, 0⟩ : StructMember) ∉ ([⟨"x", 0, 4, 0⟩] : List StructMember)) ∧
    ((∃ u ∈ unnamedType.typeStream, u.name = .ok "") ∧
      (GetStructInfo unnamedType [] "").1 = none) := by
  refine ⟨⟨by decide, by decide, by decide, by decide⟩, ⟨⟨_, List.mem_cons_self _ _, rfl⟩, by decide⟩⟩

/-- C10. `GetStructMemberOffset` returns an offset if and only if `GetStructInfo` finds the
structure and its member list contains a member whose name is exactly the requested member
name; the value returned is the offset of the first such member of the list; it returns
the empty optional (the function is total: it does not raise) when the structure is absent
and when the member, for example `Missing`, is absent. The structure cache is left as
`GetStructInfo` leaves it. -/
theorem C10_member_offset (p : Provider) (cache : UMap StructInfo)
    (structName memberName : Name) :
    ((GetStructMemberOffset p cache structName memberName).1.isSome = true ↔
      ∃ info, (GetStructInfo p cache structName).1 = some info ∧
        ∃ m ∈ info.members, m.name = memberName) ∧
    (∀ off, (GetStructMemberOffset p cache structName memberName).1 = some off →
      ∃ info m, (GetStructInfo p cache structName).1 = some info ∧
        info.members.find? (fun m => decide (m.name = memberName)) = some m ∧
        m ∈ info.members ∧ m.name = memberName ∧ m.offset = off) ∧
    ((GetStructInfo p cache structName).1 = none →
      (GetStructMemberOffset p cache structName memberName).1 = none) ∧
    (∀ info, (GetStructInfo p cache structName).1 = some info →
      (∀ m ∈ info.members, m.name ≠ memberName) →
      (GetStructMemberOffset p cache structName memberName).1 = none) ∧
    (GetStructMemberOffset p cache structName memberName).2
      = (GetStructInfo p cache structName).2 ∧
    (GetStructMemberOffset layoutProvider [] "S" "Missing").1 = none ∧
    (GetStructMemberOffset layoutProvider [] "T" "a").1 = none ∧
    (GetStructMemberOffset layoutProvider [] "S" "b").1 = some 4 := by
  refine ⟨?_, ?_, ?_, ?_, GetStructMemberOffset_cache p cache structName memberName,
    by decide, by decide, by decide⟩
  · rw [GetStructMemberOffset_result]
    cases hg : (GetStructInfo p cache structName).1 with
    | none => simp
    | some info =>
      simp only [Option.some.injEq, exists_eq_left']
      cases hf : info.members.find? (fun m => decide (m.name = memberName)) with
      | none =>
        have := List.find?_eq_none.mp hf
        simp only [Option.map_none', Option.isSome_none, Bool.false_eq_true, false_iff,
          not_exists, not_and]
        intro m hm hn
        exact this m hm (by simpa using hn)
      | some m =>
        have h1 := List.mem_of_find?_eq_some hf
        have h2 := List.find?_some hf
        simp only [Option.map_some', Option.isSome_some, true_iff]
        exact ⟨m, h1, by simpa using h2⟩
  · intro off hoff
    rw [GetStructMemberOffset_result] at hoff
    cases hg : (GetStructInfo p cache structName).1 with
    | none =>
      rw [hg] at hoff
      cases hoff
    | some info =>
      rw [hg] at hoff
      simp only at hoff
      cases hf : info.members.find? (fun m => decide (m.name = memberName)) with
      | none =>
        rw [hf] at hoff
        cases hoff
      | some m =>
        rw [hf] at hoff
        simp only [Option.map_some', Option.some.injEq] at hoff
        exact ⟨info, m, rfl, hf, List.mem_of_find?_eq_some hf,
          by simpa using List.find?_some hf, hoff⟩
  · intro hg
    rw [GetStructMemberOffset_result, hg]
  · intro info hg hall
    rw [GetStructMemberOffset_result, hg]
    simp only
    have : info.members.find? (fun m => decide (m.name = memberName)) = none := by
      rw [List.find?_eq_none]
      intro m hm
      simpa using hall m hm
    rw [this]
    rfl

/-- C11. For every provider symbol stream and every pattern the regular expression library
accepts, `FindSymbolsByPattern` returns, in enumeration order, the well-formed records
whose name the library matches against the pattern, stopping once 200 are collected: the
result is the first 200 matching well-formed records, it has at most 200 entries, contains
no record whose name does not match, and is all the matching records when there are at
most 200. With pattern `.*Create.*` over names `CreateFileW`, `OpenFile`, `RecreateIndex`
it returns `CreateFileW` and `RecreateIndex` and not `OpenFile`. -/
theorem C11_pattern_search (rx : RegexEngine) (p : Provider) (pattern : Name)
    (regex_search : Name → Bool) (h : rx.compile pattern = some regex_search) :
    FindSymbolsByPattern rx p pattern = (p.matchingSymbols regex_search).take 200 ∧
    (FindSymbolsByPattern rx p pattern).length ≤ 200 ∧
    (∀ s ∈ FindSymbolsByPattern rx p pattern,
      s ∈ p.wellFormedSymbols ∧ regex_search s.name = true) ∧
    List.Sublist (FindSymbolsByPattern rx p pattern) p.wellFormedSymbols ∧
    ((p.matchingSymbols regex_search).length ≤ 200 →
      FindSymbolsByPattern rx p pattern = p.matchingSymbols regex_search) ∧
    FindSymbolsByPattern simpleEngine createProvider ".*Create.*"
      = [⟨"CreateFileW", 0x10, 1, 0⟩, ⟨"RecreateIndex", 0x30, 1, 0⟩] := by
  rw [FindSymbolsByPattern_eq rx p pattern regex_search h]
  refine ⟨rfl, ?_, ?_, ?_, ?_, by decide⟩
  · rw [List.length_take]
    exact Nat.min_le_left _ _
  · intro s hs
    have hm := List.mem_of_mem_take hs
    unfold Provider.matchingSymbols at hm
    exact ⟨(List.mem_filter.mp hm).1, (List.mem_filter.mp hm).2⟩
  · exact (List.take_sublist _ _).trans (List.filter_sublist _)
  · intro hle
    exact List.take_of_length_le hle

/-- Witness of C11: the pattern `.*Create.*` compiles in the simple engine and the search
returns `CreateFileW` and `RecreateIndex`, at most 200 records. -/
theorem C11_witness :
    FindSymbolsByPattern simpleEngine createProvider ".*Create.*"
      = [⟨"CreateFileW", 0x10, 1, 0⟩, ⟨"RecreateIndex", 0x30, 1, 0⟩] ∧
    (FindSymbolsByPattern simpleEngine createProvider ".*Create.*").length ≤ 200 :=
  ⟨by decide,
    (C11_pattern_search simpleEngine createProvider ".*Create.*"
      ((simpleEngine.compile ".*Create.*").get (by decide))
      (Option.some_get _).symm).2.1⟩

/-- C12, the code at the failing input. The stream has two well-formed records named `A`,
first at 0x100, then at 0x200. `GetSymbolRva("A")` on a new parser returns 0x100, the rva
of the first record; after `PreloadSymbols` the cache maps `A` to 0x200 and
`GetSymbolRva("A")` returns 0x200. -/
theorem C12_preload_overwrites_first_seen :
    firstAnswer duplicateProvider.symbolStream "A" = some 0x100 ∧
    (GetSymbolRva duplicateProvider [] "A").1 = some 0x100 ∧
    (PreloadSymbols duplicateProvider []).find "A" = some 0x200 ∧
    (GetSymbolRva duplicateProvider (PreloadSymbols duplicateProvider []) "A").1
      = some 0x200 := by
  decide

/-- C13, the code at the failing input. Over the stream with two records named `A`,
`GetSymbolRva("A")` caches `A -> 0x100`; a following `PreloadSymbols` changes the value
cached for `A` to 0x200 without any `ClearCaches`. -/
theorem C13_preload_changes_cached_value :
    (runCalls duplicateProvider [.getSymbolRva "A"]).m_symbolCache.find "A" = some 0x100 ∧
    (runCalls duplicateProvider [.getSymbolRva "A", .preloadSymbols]).m_symbolCache.find "A"
      = some 0x200 := by
  decide

/-- C14. For every parser state, after `ClearCaches` the symbol cache and the structure
cache are both empty, the path, the machine type and the provider are unchanged, so the
parser is in the state of a newly created parser over the same provider, and after any
further calls `GetSymbolRva` and `GetStructInfo` return what the same calls return on a
newly created parser. -/
theorem C14_clear_caches (self : PdbParser) :
    self.clearCaches.m_symbolCache = [] ∧
    self.clearCaches.m_structCache = [] ∧
    self.clearCaches.m_pdbPath = self.m_pdbPath ∧
    self.clearCaches.m_machineType = self.m_machineType ∧
    self.clearCaches.m_pGlobalScope = self.m_pGlobalScope ∧
    self.clearCaches
      = PdbParser.opened self.m_pGlobalScope self.m_machineType self.m_pdbPath ∧
    ∀ (calls : List Call) (name : Name),
      GetSymbolRva self.m_pGlobalScope (self.clearCaches.calls calls).m_symbolCache name
        = GetSymbolRva self.m_pGlobalScope
            ((PdbParser.opened self.m_pGlobalScope self.m_machineType self.m_pdbPath).calls
              calls).m_symbolCache name ∧
      GetStructInfo self.m_pGlobalScope (self.clearCaches.calls calls).m_structCache name
        = GetStructInfo self.m_pGlobalScope
            ((PdbParser.opened self.m_pGlobalScope self.m_machineType self.m_pdbPath).calls
              calls).m_structCache name := by
  have h : self.clearCaches
      = PdbParser.opened self.m_pGlobalScope self.m_machineType self.m_pdbPath := rfl
  refine ⟨rfl, rfl, rfl, rfl, rfl, h, ?_⟩
  intro calls name
  rw [h]
  exact ⟨rfl, rfl⟩

/-- C15, as amended. `GetAllPublicSymbols` stops the enumeration once it has collected 5000
well-formed records and sorts what it collected ascending by rva: for every provider
stream the result is the rva-sorted list of the first 5000 well-formed records in
enumeration order. When the stream has at most 5000 well-formed records the result equals
the first 5000 entries of the rva-sorted list of all well-formed records, and no
well-formed record is left out. -/
theorem C15_truncate_then_sort (p : Provider) :
    GetAllPublicSymbols p
      = stdSort (fun a b => decide (a.rva < b.rva)) (p.wellFormedSymbols.take 5000) ∧
    SortedByRva (GetAllPublicSymbols p) ∧
    (GetAllPublicSymbols p).Perm (p.wellFormedSymbols.take 5000) ∧
    (p.wellFormedSymbols.length ≤ 5000 →
      GetAllPublicSymbols p
        = (stdSort (fun a b => decide (a.rva < b.rva)) p.wellFormedSymbols).take 5000 ∧
      ∀ s ∈ p.wellFormedSymbols, s ∈ GetAllPublicSymbols p) := by
  refine ⟨GetAllPublicSymbols_eq p, GetAllPublicSymbols_sorted p, GetAllPublicSymbols_perm p, ?_⟩
  intro hle
  constructor
  · rw [GetAllPublicSymbols_eq, List.take_of_length_le hle, List.take_of_length_le]
    rw [stdSort_length]
    exact hle
  · intro s hs
    have hp := GetAllPublicSymbols_perm p
    rw [List.take_of_length_le hle] at hp
    exact hp.mem_iff.mpr hs

/-- Witness of C15 as amended, on a stream with malformed records. -/
theorem C15_witness :
    GetAllPublicSymbols mixedProvider
      = (stdSort (fun a b => decide (a.rva < b.rva)) mixedProvider.wellFormedSymbols).take 5000 :=
  ((C15_truncate_then_sort mixedProvider).2.2.2 (by decide)).1

/-- Counterexample to C15 as stated: after 5000 well-formed records with rva 0 to 4999 the
stream holds a well-formed record `b` with rva 2. The result leaves `b` out and holds the
record with rva 4999, so it is not the first 5000 entries of the rva-sorted list of all
well-formed records. -/
theorem C15_counterexample :
    (⟨"b", 2, 0, 0⟩ : SymbolInfo) ∈ overfullProvider.wellFormedSymbols ∧
    (⟨"b", 2, 0, 0⟩ : SymbolInfo) ∉ GetAllPublicSymbols overfullProvider ∧
    (⟨fillerName 4999, 4999, 0, 0⟩ : SymbolInfo) ∈ GetAllPublicSymbols overfullProvider ∧
    (⟨"b", 2, 0, 0⟩ : SymbolInfo).rva < (⟨fillerName 4999, 4999, 0, 0⟩ : SymbolInfo).rva := by
  refine ⟨?_, ?_, ?_, ?_⟩
  · rw [wellFormedSymbols_overfull]
    simp
  · rw [mem_GetAll_overfull]
    intro h
    obtain ⟨i, _, hi⟩ := List.mem_map.mp h
    have : fillerName i = "b" := congrArg SymbolInfo.name hi
    exact fillerName_ne_b i this
  · rw [mem_GetAll_overfull]
    exact List.mem_map.mpr ⟨4999, List.mem_range.mpr (by omega), rfl⟩
  · show 2 < 4999
    omega

/-- C16, as amended. For every record returned by `GetStructInfo`, after any sequence of
calls, whose size was read from the provider, every member `m` satisfies `0 ≤ m.offset`,
and `m.offset < record.size` holds provided each of the first 100 well-formed members of
the provider's type record has its offset below the provider's size of that record. -/
theorem C16_offsets_follow_provider (p : Provider) (calls : List Call) (name : Name)
    (before : List RawUdt) (u : RawUdt) (after : List RawUdt) (size : Nat)
    (hs : p.typeStream = before ++ u :: after)
    (hb : ∀ x ∈ before, x.hit name = false) (hu : u.hit name = true)
    (hsize : u.length = .ok size)
    (hprov : ∀ m ∈ u.wellFormedMembers.take 100, m.offset < size) :
    ∃ info, (GetStructInfo p (runCalls p calls).m_structCache name).1 = some info ∧
      info.size = some size ∧
      ∀ m ∈ info.members, 0 ≤ m.offset ∧ m.offset < size := by
  rw [GetStructInfo_runCalls]
  obtain ⟨sz, hparse, hsz⟩ := ParseStructInternal_some p [] name before u after hs hb hu
  have hg : GetStructInfo p [] name = ParseStructInternal p [] name := rfl
  rw [hg, hparse]
  refine ⟨_, rfl, hsz size hsize, ?_⟩
  intro m hm
  refine ⟨Nat.zero_le _, hprov m ?_⟩
  exact (stdSort_perm _ _).mem_iff.mp hm

/-- Witness of C16 as amended: the structure `S` of size 12 with members at 8, 0 and 4. -/
theorem C16_witness :
    ∃ info, (GetStructInfo layoutProvider
        (runCalls layoutProvider [.getStructInfo "S"]).m_structCache "S").1 = some info ∧
      info.size = some 12 ∧
      ∀ m ∈ info.members, 0 ≤ m.offset ∧ m.offset < 12 :=
  C16_offsets_follow_provider layoutProvider [.getStructInfo "S"] "S" []
    ⟨.ok "S", .ok 12, .ok [.mk4 "c" 8 4 0, .mk4 "a" 0 4 0, .mk4 "b" 4 4 0]⟩ [] 12 rfl
    (fun x hx => absurd hx (List.not_mem_nil _)) (by decide) rfl (by decide)

/-- Counterexample to C16 as stated: the provider gives the structure `S` the size 4 and a
member at offset 8; `GetStructInfo` returns the record with size 4 and the member at
offset 8. -/
theorem C16_counterexample :
    (GetStructInfo outOfBoundsProvider [] "S").1 = some ⟨"S", some 4, [⟨"m", 8, 4, 0⟩]⟩ ∧
    ¬ ((⟨"m", 8, 4, 0⟩ : StructMember).offset < 4) := by
  decide

/-- C17, as amended. For every syntactically malformed pattern `FindSymbolsByPattern` does
not raise and returns the empty list: the outcome the caller receives is the outcome of any
valid pattern that matches no symbol. -/
theorem C17_malformed_pattern_returns_empty (rx : RegexEngine) (p : Provider)
    (pattern : Name) (h : rx.compile pattern = none) :
    FindSymbolsByPattern rx p pattern = [] ∧
    ∀ (valid : Name) (regex_search : Name → Bool), rx.compile valid = some regex_search →
      (∀ s ∈ p.wellFormedSymbols, regex_search s.name = false) →
      FindSymbolsByPattern rx p valid = FindSymbolsByPattern rx p pattern := by
  rw [FindSymbolsByPattern_error rx p pattern h]
  refine ⟨rfl, ?_⟩
  intro valid m hv hnone
  rw [FindSymbolsByPattern_eq rx p valid m hv]
  unfold Provider.matchingSymbols
  have : p.wellFormedSymbols.filter (fun s => m s.name) = [] := by
    rw [List.filter_eq_nil_iff]
    intro s hs
    simp [hnone s hs]
  rw [this]
  rfl

/-- Witness of C17 as amended: the pattern `*` has nothing to repeat. -/
theorem C17_witness :
    FindSymbolsByPattern simpleEngine createProvider "*" = [] :=
  (C17_malformed_pattern_returns_empty simpleEngine createProvider "*"
    (Option.isNone_iff_eq_none.mp (by decide))).1

/-- Counterexample to C17 as stated: the malformed pattern `*` and the valid pattern `zzz`,
which matches no symbol of the stream, give the caller the same outcome. -/
theorem C17_counterexample :
    (simpleEngine.compile "*").isNone = true ∧
    (simpleEngine.compile "zzz").isSome = true ∧
    (∀ s ∈ createProvider.wellFormedSymbols,
      (simpleEngine.compile "zzz").map (fun m => m s.name) = some false) ∧
    FindSymbolsByPattern simpleEngine createProvider "*"
      = FindSymbolsByPattern simpleEngine createProvider "zzz" := by
  decide

/-- C18. For every pattern, valid or malformed, and every state of the caches,
`FindSymbolsByPattern` leaves the parser object, so the symbol cache and the structure
cache, unchanged, and its result is the same on every parser whose provider has the same
symbol stream, whatever the caches contain. -/
theorem C18_pattern_search_ignores_caches (rx : RegexEngine) (self : PdbParser)
    (pattern : Name) :
    (self.findSymbolsByPattern rx pattern).2 = self ∧
    (self.call (.findSymbolsByPattern pattern)).m_symbolCache = self.m_symbolCache ∧
    (self.call (.findSymbolsByPattern pattern)).m_structCache = self.m_structCache ∧
    ∀ other : PdbParser,
      other.m_pGlobalScope.symbolStream = self.m_pGlobalScope.symbolStream →
      (other.findSymbolsByPattern rx pattern).1 = (self.findSymbolsByPattern rx pattern).1 := by
  refine ⟨rfl, rfl, rfl, ?_⟩
  intro other h
  exact FindSymbolsByPattern_stream rx self.m_pGlobalScope other.m_pGlobalScope pattern h

/-- Witness of C18: the search over a parser with filled caches and over a new parser. -/
theorem C18_witness :
    ((PdbParser.opened createProvider 0 "x.pdb").findSymbolsByPattern simpleEngine ".*Create.*").1
      = ((⟨createProvider, 0, "x.pdb", [("OpenFile", 0x20)], [("S", ⟨"S", none, []⟩)]⟩ :
          PdbParser).findSymbolsByPattern simpleEngine ".*Create.*").1 :=
  (C18_pattern_search_ignores_caches simpleEngine
    ⟨createProvider, 0, "x.pdb", [("OpenFile", 0x20)], [("S", ⟨"S", none, []⟩)]⟩
    ".*Create.*").2.2.2 (PdbParser.opened createProvider 0 "x.pdb") rfl

/-- C19, as amended. `FindSymbolsByPattern` does not report that the 200-match cap
truncated the result: for every stream, also one with more than 200 matching symbols, and
the stream consisting of exactly its first 200 matching symbols, the caller receives equal
results, the first 200 matching symbols. -/
theorem C19_truncation_not_reported (rx : RegexEngine) (p : Provider) (pattern : Name)
    (regex_search : Name → Bool) (h : rx.compile pattern = some regex_search) :
    FindSymbolsByPattern rx (p.firstMatches regex_search) pattern
      = FindSymbolsByPattern rx p pattern ∧
    FindSymbolsByPattern rx p pattern = (p.matchingSymbols regex_search).take 200 := by
  rw [FindSymbolsByPattern_eq rx p pattern regex_search h,
    FindSymbolsByPattern_eq rx _ pattern regex_search h, matchingSymbols_firstMatches,
    List.take_take, Nat.min_self]
  exact ⟨rfl, rfl⟩

/-- Witness of C19 as amended: a stream of 201 symbols named `sym` and the pattern `sym`. -/
theorem C19_witness :
    FindSymbolsByPattern simpleEngine
        ((repeatedProvider 201).firstMatches ((simpleEngine.compile "sym").get (by decide))) "sym"
      = FindSymbolsByPattern simpleEngine (repeatedProvider 201) "sym" :=
  (C19_truncation_not_reported simpleEngine (repeatedProvider 201) "sym"
    ((simpleEngine.compile "sym").get (by decide)) (Option.some_get _).symm).1

/-- Counterexample to C19 as stated: a stream with 201 matching symbols and the stream of
its first 200 matching symbols give the caller the same 200 results. -/
theorem C19_counterexample :
    (∃ m, simpleEngine.compile "sym" = some m ∧
      200 < ((repeatedProvider 201).matchingSymbols m).length ∧
      ((repeatedProvider 201).firstMatches m).symbolStream
        = (repeatedProvider 200).symbolStream) ∧
    FindSymbolsByPattern simpleEngine (repeatedProvider 201) "sym"
      = FindSymbolsByPattern simpleEngine (repeatedProvider 200) "sym" ∧
    (FindSymbolsByPattern simpleEngine (repeatedProvider 201) "sym").length = 200 := by
  have hc : simpleEngine.compile "sym"
      = some ((simpleEngine.compile "sym").get (by decide)) := (Option.some_get _).symm
  have hm : (simpleEngine.compile "sym").get (by decide) "sym" = true := by decide
  generalize (simpleEngine.compile "sym").get (by decide) = m at hc hm
  have h201 := matchingSymbols_repeated 201 m hm
  have h200 := matchingSymbols_repeated 200 m hm
  refine ⟨⟨m, hc, ?_, ?_⟩, ?_, ?_⟩
  · rw [h201, List.length_replicate]
    exact Nat.lt_succ_self 200
  · unfold Provider.firstMatches repeatedProvider Provider.symbolStream
    simp only [Option.getD_some]
    have hmb : RawSymbol.matchedBy m (RawSymbol.mk4 "sym" 16 4 0) = true := by
      unfold RawSymbol.matchedBy
      have : (RawSymbol.mk4 "sym" 16 4 0).wellFormed = some ⟨"sym", 16, 4, 0⟩ := by decide
      rw [this]
      exact hm
    rw [List.filter_eq_self.mpr (fun a ha => by rw [(List.mem_replicate.mp ha).2]; exact hmb),
      List.take_replicate]
    rfl
  · rw [FindSymbolsByPattern_eq _ _ _ m hc, FindSymbolsByPattern_eq _ _ _ m hc, h201, h200,
      List.take_replicate, List.take_replicate]
    rfl
  · rw [FindSymbolsByPattern_eq _ _ _ m hc, h201, List.take_replicate, List.length_replicate]
    rfl

set_option maxRecDepth 100000 in
/-- C20, the code at the failing input. The parser has a symbol `q"s\t`, a structure `S"1`
and a member `m\1`. In the document written by `DumpToJson` the symbol name has its quote
and its backslash escaped, the structure name is written with its quote unescaped and the
member name with its backslash unescaped. -/
theorem C20_struct_and_member_names_unescaped :
    DumpToJson quoteParser true (fun _ => 0)
      = (true,
      "\x7b\n" ++
      "  \"pdb_info\": \x7b\n" ++
      "    \"path\": \"x.pdb\",\n" ++
      "    \"machine_type\": 34404\n" ++
      "  \x7d,\n" ++
      "  \"symbols\": [\n" ++
      "    \x7b\n" ++
      "      \"name\": \"q\\\"s\\\\t\",\n" ++
      "      \"rva\": \"0x1f\",\n" ++
      "      \"size\": 8,\n" ++
      "      \"type_id\": 3\n" ++
      "    \x7d\n" ++
      "  ],\n" ++
      "  \"structures\": [\n" ++
      "    \x7b\n" ++
      "      \"name\": \"S\"1\",\n" ++
      "      \"size\": 12,\n" ++
      "      \"members\": [\n" ++
      "        \x7b\n" ++
      "          \"name\": \"m\\1\",\n" ++
      "          \"offset\": 4,\n" ++
      "          \"size\": 4,\n" ++
      "          \"type_id\": 7\n" ++
      "        \x7d\n" ++
      "      ]\n" ++
      "    \x7d\n" ++
      "  ],\n" ++
      "  \"statistics\": \x7b\n" ++
      "    \"total_symbols\": 1,\n" ++
      "    \"total_structures\": 1\n" ++
      "  \x7d\n" ++
      "\x7d\n",
      { quoteParser with
        m_structCache :=
          [("S\"1", ⟨"S\"1", some 12, [⟨"m\\1", 4, 4, 7⟩]⟩)] }) := by
  decide

set_option maxRecDepth 100000 in
/-- C21, the code at the failing input. The parser is opened on the path `C:\pdb\a.pdb`.
`DumpToJson` writes the path as it is, so the document holds the string
`"C:\pdb\a.pdb"`, in which a backslash is followed by `p`: the text is not a JSON
document. -/
theorem C21_path_written_unescaped :
    (DumpToJson windowsPathParser true (fun _ => 0)).2.1
      = ("\x7b\n" ++
      "  \"pdb_info\": \x7b\n" ++
      "    \"path\": \"C:\\pdb\\a.pdb\",\n" ++
      "    \"machine_type\": 34404\n" ++
      "  \x7d,\n" ++
      "  \"symbols\": [\n" ++
      "  ],\n" ++
      "  \"structures\": [\n" ++
      "  ],\n" ++
      "  \"statistics\": \x7b\n" ++
      "    \"total_symbols\": 0,\n" ++
      "    \"total_structures\": 0\n" ++
      "  \x7d\n" ++
      "\x7d\n") ∧
    legalEscapes (DumpToJson windowsPathParser true (fun _ => 0)).2.1.data = false := by
  decide

/-- C24, as amended. For every list of database paths and every output directory that can
be created, `ProcessMultiplePdbs` attempts every path of the list in order: what it writes
is, path by path, the text `DumpToJson` writes for each path whose parser opens and whose
output file opens, under the name `<outputDir>\<stem>_analysis.json`; a path that fails to
open or to export adds nothing and does not stop the loop. So every path that opens and
exports successfully is written to its file at its turn, whatever happens to the other
paths, and at the end the file holds that text when no later path of the list is exported
to the same file. -/
theorem C24_batch_isolates_failures (host : Host) (before after : List Name)
    (pdbFile outputDir : Name) (parser : PdbParser)
    (hparser : PdbParser.construct host pdbFile = some parser)
    (hexport : (DumpToJson parser
        (host.opens (outputDir ++ "\\" ++ host.stem pdbFile ++ "_analysis.json"))
        host.uninit).1 = true) :
    ProcessMultiplePdbs host (before ++ pdbFile :: after) outputDir
      = (before ++ pdbFile :: after).filterMap (exportOf host outputDir) ∧
    (outputDir ++ "\\" ++ host.stem pdbFile ++ "_analysis.json",
        (DumpToJson parser true host.uninit).2.1)
      ∈ ProcessMultiplePdbs host (before ++ pdbFile :: after) outputDir ∧
    ((∀ later ∈ after, (exportOf host outputDir later).map (fun e => e.1)
        ≠ some (outputDir ++ "\\" ++ host.stem pdbFile ++ "_analysis.json")) →
      fileAfter (ProcessMultiplePdbs host (before ++ pdbFile :: after) outputDir)
          (outputDir ++ "\\" ++ host.stem pdbFile ++ "_analysis.json")
        = some (DumpToJson parser true host.uninit).2.1) := by
  have h := ProcessMultiplePdbs_eq host (before ++ pdbFile :: after) outputDir
  rw [DumpToJson_flag] at hexport
  have he : exportOf host outputDir pdbFile
      = some (outputDir ++ "\\" ++ host.stem pdbFile ++ "_analysis.json",
          (DumpToJson parser true host.uninit).2.1) := by
    unfold exportOf
    rw [hparser]
    simp only [hexport, if_true]
  refine ⟨h, ?_, ?_⟩
  · rw [h]
    exact List.mem_filterMap.mpr ⟨pdbFile, by simp, he⟩
  · intro hlater
    rw [h, List.filterMap_append, List.filterMap_cons, he, fileAfter_append]
    have h1 := fileAfter_append
      [(outputDir ++ "\\" ++ host.stem pdbFile ++ "_analysis.json",
        (DumpToJson parser true host.uninit).2.1)]
      (after.filterMap (exportOf host outputDir))
      (outputDir ++ "\\" ++ host.stem pdbFile ++ "_analysis.json")
    simp only [List.singleton_append] at h1
    rw [h1, fileAfter_eq_none]
    · simp [fileAfter]
    · intro w hw
      obtain ⟨later, hl, hwl⟩ := List.mem_filterMap.mp hw
      have hne := hlater later hl
      rw [hwl] at hne
      simpa using hne

set_option maxRecDepth 100000 in
/-- Witness of C24 as amended: of the paths `a.pdb`, `b.pdb`, `c.pdb` the second fails to
open; the first and the third are exported, and at the end `out\a_analysis.json` holds the
text written for `a.pdb`. -/
theorem C24_witness :
    (ProcessMultiplePdbs batchHost ["a.pdb", "b.pdb", "c.pdb"] "out").map (fun e => e.1)
      = ["out\\a_analysis.json", "out\\c_analysis.json"] ∧
    PdbParser.construct batchHost "b.pdb" = none ∧
    fileAfter (ProcessMultiplePdbs batchHost ([] ++ "a.pdb" :: ["b.pdb", "c.pdb"]) "out")
        ("out" ++ "\\" ++ batchHost.stem "a.pdb" ++ "_analysis.json")
      = some (DumpToJson (PdbParser.opened diffOldA 0x8664 "a.pdb") true batchHost.uninit).2.1 :=
  ⟨by decide, by decide,
    (C24_batch_isolates_failures batchHost [] ["b.pdb", "c.pdb"] "a.pdb" "out"
      (PdbParser.opened diffOldA 0x8664 "a.pdb") (by decide) (by decide)).2.2 (by decide)⟩

set_option maxRecDepth 100000 in
/-- Counterexample to C24 as stated. The paths `x\s.pdb` and `y\s.pdb` both open and both
exports return `true`; both have the stem `s`, so both are written to
`out\s_analysis.json`, the second write replaces the first, and at the end the file holds
the text written for `y\s.pdb` and not the text written for `x\s.pdb`. -/
theorem C24_counterexample :
    PdbParser.construct sameStemHost "x\\s.pdb"
      = some (PdbParser.opened diffOldA 0x8664 "x\\s.pdb") ∧
    PdbParser.construct sameStemHost "y\\s.pdb"
      = some (PdbParser.opened layoutProvider 0x014c "y\\s.pdb") ∧
    (ProcessMultiplePdbs sameStemHost ["x\\s.pdb", "y\\s.pdb"] "out").map (fun e => e.1)
      = ["out\\s_analysis.json", "out\\s_analysis.json"] ∧
    fileAfter (ProcessMultiplePdbs sameStemHost ["x\\s.pdb", "y\\s.pdb"] "out")
        "out\\s_analysis.json"
      = some (DumpToJson (PdbParser.opened layoutProvider 0x014c "y\\s.pdb") true
          (fun _ => 0)).2.1 ∧
    fileAfter (ProcessMultiplePdbs sameStemHost ["x\\s.pdb", "y\\s.pdb"] "out")
        "out\\s_analysis.json"
      ≠ some (DumpToJson (PdbParser.opened diffOldA 0x8664 "x\\s.pdb") true
          (fun _ => 0)).2.1 := by
  decide

/-- C25. For every provider symbol stream `GetAllPublicSymbols` stops enumerating once it
has collected 5000 well-formed records: its result is a permutation of the first 5000
well-formed records in enumeration order, of all of them when there are at most 5000, and
a well-formed record that comes only after the 5000th is not in the result, whatever its
rva; so the record `b` with rva 2 behind 5000 records with rva 0 to 4999 is left out. -/
theorem C25_first_5000_in_enumeration_order (p : Provider) :
    (GetAllPublicSymbols p).Perm (p.wellFormedSymbols.take 5000) ∧
    (p.wellFormedSymbols.length ≤ 5000 → (GetAllPublicSymbols p).Perm p.wellFormedSymbols) ∧
    (∀ s ∈ p.wellFormedSymbols.drop 5000, s ∉ p.wellFormedSymbols.take 5000 →
      s ∉ GetAllPublicSymbols p) ∧
    (⟨"b", 2, 0, 0⟩ : SymbolInfo) ∈ overfullProvider.wellFormedSymbols.drop 5000 ∧
    (⟨"b", 2, 0, 0⟩ : SymbolInfo) ∉ GetAllPublicSymbols overfullProvider := by
  refine ⟨GetAllPublicSymbols_perm p, ?_, ?_, ?_, ?_⟩
  · intro hle
    have hp := GetAllPublicSymbols_perm p
    rwa [List.take_of_length_le hle] at hp
  · intro s _ hnot hin
    exact hnot ((GetAllPublicSymbols_perm p).mem_iff.mp hin)
  · rw [wellFormedSymbols_overfull, List.drop_append_of_le_length (by simp),
      List.drop_of_length_le (by simp)]
    simp
  · rw [mem_GetAll_overfull]
    intro h
    obtain ⟨i, _, hi⟩ := List.mem_map.mp h
    exact fillerName_ne_b i (congrArg SymbolInfo.name hi)

/-- Witness of C25 on a stream with malformed records and fewer than 5000 well-formed
ones. -/
theorem C25_witness :
    (GetAllPublicSymbols mixedProvider).Perm mixedProvider.wellFormedSymbols :=
  (C25_first_5000_in_enumeration_order mixedProvider).2.1 (by decide)

/-- C26, as amended. For every pair of provider symbol streams of any length, a name
carried by one of the first 5000 well-formed records of both streams is never reported by
`ComparePdbs` as added or as removed. -/
theorem C26_common_name_not_added_or_removed (oldPdb newPdb : Provider) (n : Name)
    (hold : n ∈ (oldPdb.wellFormedSymbols.take 5000).map (fun s => s.name))
    (hnew : n ∈ (newPdb.wellFormedSymbols.take 5000).map (fun s => s.name)) :
    ∀ d ∈ ComparePdbs oldPdb newPdb, d.name = n → d.added = false ∧ d.removed = false := by
  intro d hd hname
  obtain ⟨ov, ho⟩ := lastRva_isSome_of_mem _ n ((names_GetAll_iff oldPdb n).mpr hold)
  obtain ⟨nv, hn⟩ := lastRva_isSome_of_mem _ n ((names_GetAll_iff newPdb n).mpr hnew)
  have hmem : d ∈ (ComparePdbs oldPdb newPdb).filter (fun e => decide (e.name = n)) :=
    List.mem_filter.mpr ⟨hd, by simp [hname]⟩
  unfold ComparePdbs at hmem
  rw [compareSymbols_named, ho, hn] at hmem
  simp only at hmem
  split at hmem
  · rw [List.mem_singleton] at hmem
    rw [hmem]
    exact ⟨rfl, rfl⟩
  · cases hmem

/-- Witness of C26 as amended: the name `B` of the snapshots `{A, B}` and `{B, C}`. -/
theorem C26_witness :
    "B" ∈ (diffOldAB.wellFormedSymbols.take 5000).map (fun s => s.name) ∧
    "B" ∈ (diffNewBC.wellFormedSymbols.take 5000).map (fun s => s.name) ∧
    ∀ d ∈ ComparePdbs diffOldAB diffNewBC, d.name = "B" → d.added = false ∧ d.removed = false :=
  ⟨by decide, by decide,
    C26_common_name_not_added_or_removed diffOldAB diffNewBC "B" (by decide) (by decide)⟩

/-- Counterexample to C26 as stated: the old stream holds the well-formed record `b` behind
5000 other well-formed records, the new stream holds `b` alone. The name `b` is carried by
a well-formed record in both streams and `ComparePdbs` reports it as added. -/
theorem C26_counterexample :
    "b" ∈ overfullProvider.wellFormedSymbols.map (fun s => s.name) ∧
    "b" ∈ singleBProvider.wellFormedSymbols.map (fun s => s.name) ∧
    (⟨"b", 0, 2, true, false, false⟩ : SymbolDiff)
      ∈ ComparePdbs overfullProvider singleBProvider := by
  refine ⟨?_, by decide, ?_⟩
  · rw [wellFormedSymbols_overfull]
    simp
  · have hold : lastRva (GetAllPublicSymbols overfullProvider) "b" = none := by
      rw [lastRva_eq_none_iff]
      intro hmem
      obtain ⟨s, hs, hn⟩ := List.mem_map.mp hmem
      obtain ⟨i, _, hi⟩ := List.mem_map.mp ((mem_GetAll_overfull s).mp hs)
      rw [← hi] at hn
      exact fillerName_ne_b i hn
    have hnew : lastRva (GetAllPublicSymbols singleBProvider) "b" = some 2 := by decide
    have hf := compareSymbols_named (GetAllPublicSymbols overfullProvider)
      (GetAllPublicSymbols singleBProvider) "b"
    rw [hold, hnew] at hf
    have hmem : (⟨"b", 0, 2, true, false, false⟩ : SymbolDiff)
        ∈ (compareSymbols (GetAllPublicSymbols overfullProvider)
            (GetAllPublicSymbols singleBProvider)).filter (fun d => decide (d.name = "b")) := by
      rw [hf]
      exact List.mem_singleton.mpr rfl
    exact (List.mem_filter.mp hmem).1

/-- C27, as amended. For every provider symbol stream with at most 5000 records in which
every record with a readable, non-empty name and a readable rva is well-formed, and every
name: `GetSymbolRva` with an empty cache returns an rva for the name exactly when
`GetAllPublicSymbols` contains a record with that name, and when it returns `v`,
`GetAllPublicSymbols` contains a record with that name and rva `v`. -/
theorem C27_lookup_agrees_with_snapshot (p : Provider)
    (hlen : p.symbolStream.length ≤ 5000)
    (hwf : ∀ r ∈ p.symbolStream, r.nameAndRva.isSome = true → r.wellFormed.isSome = true)
    (name : Name) :
    ((GetSymbolRva p [] name).1.isSome = true ↔
      name ∈ (GetAllPublicSymbols p).map (fun s => s.name)) ∧
    ∀ v, (GetSymbolRva p [] name).1 = some v →
      ∃ s ∈ GetAllPublicSymbols p, s.name = name ∧ s.rva = v := by
  have hle : p.wellFormedSymbols.length ≤ 5000 :=
    Nat.le_trans (wellFormedSymbols_length_le p) hlen
  have hperm : (GetAllPublicSymbols p).Perm p.wellFormedSymbols := by
    have hp := GetAllPublicSymbols_perm p
    rwa [List.take_of_length_le hle] at hp
  have hres : (GetSymbolRva p [] name).1 = firstAnswer p.symbolStream name := by
    rw [GetSymbolRva_miss p [] name rfl]
    cases firstAnswer p.symbolStream name <;> rfl
  have hsome : ∀ v, firstAnswer p.symbolStream name = some v →
      ∃ s ∈ GetAllPublicSymbols p, s.name = name ∧ s.rva = v := by
    intro v hv
    obtain ⟨before, r, after, heq, hr, _⟩ := (firstAnswer_eq_some_iff _ name v).mp hv
    have hrmem : r ∈ p.symbolStream := by
      rw [heq]
      simp
    have hnr := nameAndRva_of_answer r name v hr
    obtain ⟨s, hs⟩ := Option.isSome_iff_exists.mp (hwf r hrmem (by rw [hnr]; rfl))
    have hnr' := nameAndRva_of_wellFormed r s hs
    rw [hnr] at hnr'
    have hpair := Option.some.inj hnr'
    refine ⟨s, hperm.mem_iff.mpr (List.mem_filterMap.mpr ⟨r, hrmem, hs⟩), ?_, ?_⟩
    · exact (congrArg Prod.fst hpair).symm
    · exact (congrArg Prod.snd hpair).symm
  rw [hres]
  refine ⟨⟨?_, ?_⟩, hsome⟩
  · intro h
    obtain ⟨v, hv⟩ := Option.isSome_iff_exists.mp h
    obtain ⟨s, hs, hn, _⟩ := hsome v hv
    exact List.mem_map.mpr ⟨s, hs, hn⟩
  · intro h
    obtain ⟨s, hs, hn⟩ := List.mem_map.mp h
    have hmem := mem_readable_of_wellFormed p s (hperm.mem_iff.mp hs)
    rw [hn] at hmem
    cases hf : firstAnswer p.symbolStream name with
    | none => exact absurd hf (firstAnswer_ne_none _ _ _ hmem)
    | some v => rfl

/-- Witness of C27 as amended: the snapshot `{A:0x100, B:0x200}`. -/
theorem C27_witness :
    ((GetSymbolRva diffOldAB [] "B").1.isSome = true ↔
      "B" ∈ (GetAllPublicSymbols diffOldAB).map (fun s => s.name)) ∧
    ∀ v, (GetSymbolRva diffOldAB [] "B").1 = some v →
      ∃ s ∈ GetAllPublicSymbols diffOldAB, s.name = "B" ∧ s.rva = v :=
  C27_lookup_agrees_with_snapshot diffOldAB (by decide) (by decide) "B"

/-- Counterexample to C27 as stated: the stream has one record, named `x`, with rva 3 and
an unreadable length. `GetSymbolRva("x")` returns 3, `GetAllPublicSymbols` is empty. -/
theorem C27_counterexample :
    unreadableLengthProvider.symbolStream.length ≤ 5000 ∧
    (GetSymbolRva unreadableLengthProvider [] "x").1 = some 3 ∧
    GetAllPublicSymbols unreadableLengthProvider = [] := by
  decide

/-- C29. For every pair of snapshots, `ComparePdbs(new, old)` equals, up to the order of
entries, `ComparePdbs(old, new)` with the added and removed flags of every entry exchanged
and its `oldRva` and `newRva` exchanged; `ComparePdbs(s, s)` is empty. -/
theorem C29_compare_is_symmetric (oldPdb newPdb : Provider)
    (oldSymbols newSymbols : List SymbolInfo) :
    (ComparePdbs newPdb oldPdb).Perm ((ComparePdbs oldPdb newPdb).map SymbolDiff.swap) ∧
    ComparePdbs oldPdb oldPdb = [] ∧
    (compareSymbols newSymbols oldSymbols).Perm
      ((compareSymbols oldSymbols newSymbols).map SymbolDiff.swap) ∧
    compareSymbols oldSymbols oldSymbols = [] ∧
    (ComparePdbs diffNewBC diffOldAB).Perm
      [⟨"C", 0x300, 0, false, true, false⟩, ⟨"A", 0, 0x100, true, false, false⟩] :=
  ⟨compareSymbols_swap _ _, compareSymbols_self _, compareSymbols_swap _ _,
    compareSymbols_self _, by decide⟩

set_option maxRecDepth 100000 in
/-- C30, the code at the failing input. Of the paths `a.pdb`, `b.pdb` the first opens and
the second fails to open. `GenerateSummaryReport` writes the entry of `a.pdb` followed by
a comma, because `a.pdb` is not the last path of the list, and then closes the array: a
comma stands after the last entry. -/
theorem C30_comma_after_last_entry :
    GenerateSummaryReport batchHost ["a.pdb", "b.pdb"] "summary.json"
      = some ("\x7b\n" ++
      "  \"summary\": \x7b\n" ++
      "    \"total_files\": 2,\n" ++
      "    \"processed\": [\n" ++
      "      \x7b\n" ++
      "        \"file\": \"a.pdb\",\n" ++
      "        \"symbols\": 1,\n" ++
      "        \"structures\": 0\n" ++
      "      \x7d,\n" ++
      "    ]\n" ++
      "  \x7d\n" ++
      "\x7d\n") := by
  decide

end PDBParser
